import Mathlib

/-!
Verification of the usdc.js client library against its specification.

This file gives a shallow embedding, in Lean 4, of the numeric and byte
codecs (src/util/types.ts, here src/unnamed/part_016), the Ethereum ABI
codec (src/vendor/ethereumjs-abi.js), the transaction builder and its
sign/submit flow (src/wallet/transaction, src/unnamed/part_015 and
part_012), the account signature formatting (src/wallet/Account.ts), and
the USDC contract-address resolution (src/unnamed/part_006).

Modeling conventions:
- JavaScript strings are embedded as `List Char` (and, in the ABI codec,
  where strings are treated as sequences of Unicode code points, as
  `List Nat`); JavaScript byte Buffers are `List Nat` with each entry
  intended to be below 256.
- JavaScript numbers are embedded as exact rationals `ℚ` (the embedded
  computations stay far below 2^53, where floats are exact; theorems
  carry explicit bounds where that matters); `Number.isInteger` becomes
  a denominator test.  The special value NaN, which matters for
  `numberFromHexString`, is embedded by the dedicated type `JsNumber`.
- bn.js big integers are embedded as `ℤ`.
- Thrown exceptions are embedded with `Except JsErr`.
- Keccak-256, RLP and secp256k1 come from external packages (keccak,
  rlp, elliptic) and are treated as abstract function parameters, as the
  specification declares them external collaborators.
-/

/-- Embedded JavaScript exception values: TypeError, RangeError, plain
Error, and the library's JSONRPCError (whose message participates in the
duplicate-send match of Transaction.submit). -/
inductive JsErr where
  | typeError (msg : String)
  | rangeError (msg : String)
  | jsError (msg : String)
  | jsonRpcError (msg : List Char)
deriving DecidableEq, Repr

/-- A JavaScript number that is either NaN or an exact rational. -/
inductive JsNumber where
  | nan
  | num (q : ℚ)
deriving DecidableEq, Repr

/-- Character class of the regex `\d` (JavaScript digits 0-9). -/
def isDigitChar (c : Char) : Bool :=
  c == '0' || c == '1' || c == '2' || c == '3' || c == '4' ||
  c == '5' || c == '6' || c == '7' || c == '8' || c == '9'

/-- Character class of the regex `[0-9a-fA-F]`. -/
def isHexDigitChar (c : Char) : Bool :=
  isDigitChar c ||
  c == 'a' || c == 'b' || c == 'c' || c == 'd' || c == 'e' || c == 'f' ||
  c == 'A' || c == 'B' || c == 'C' || c == 'D' || c == 'E' || c == 'F'

/-- The lowercase hexadecimal digit characters emitted by
`Number.prototype.toString(16)`, `BN.prototype.toString(16)` and
`Buffer.prototype.toString("hex")`. -/
def hexDigitChar (d : Nat) : Char :=
  match d with
  | 0 => '0' | 1 => '1' | 2 => '2' | 3 => '3' | 4 => '4'
  | 5 => '5' | 6 => '6' | 7 => '7' | 8 => '8' | 9 => '9'
  | 10 => 'a' | 11 => 'b' | 12 => 'c' | 13 => 'd' | 14 => 'e' | 15 => 'f'
  | _ => '?'

/-- Numeric value of a hexadecimal digit character (either case), as used
by `parseInt(-, 16)`, `new BN(-, 16)` and `Buffer.from(-, "hex")`. -/
def charHexVal (c : Char) : Nat :=
  match c with
  | '0' => 0 | '1' => 1 | '2' => 2 | '3' => 3 | '4' => 4
  | '5' => 5 | '6' => 6 | '7' => 7 | '8' => 8 | '9' => 9
  | 'a' => 10 | 'b' => 11 | 'c' => 12 | 'd' => 13 | 'e' => 14 | 'f' => 15
  | 'A' => 10 | 'B' => 11 | 'C' => 12 | 'D' => 13 | 'E' => 14 | 'F' => 15
  | _ => 0

/-- Value of a big-endian digit list in a given base. -/
def digitsValBE (base : Nat) (l : List Nat) : Nat :=
  l.foldl (fun a d => base * a + d) 0

/-- Big-endian base-`base` digits of `n`, by repeated division; the first
argument is fuel (any fuel at least `n` is enough for `base ≥ 2`). -/
def natDigitsBEAux (base : Nat) : Nat → Nat → List Nat
  | 0, _ => []
  | fuel + 1, n =>
    if n = 0 then [] else natDigitsBEAux base fuel (n / base) ++ [n % base]

/-- Big-endian base-`base` digits of `n` (empty for `n = 0`). -/
def natDigitsBE (base n : Nat) : List Nat :=
  natDigitsBEAux base n n

/-- `n.toString(16)` for a non-negative integer (also the behaviour of
`BN.prototype.toString(16)` without padding): minimal lowercase
hexadecimal, with zero rendered as "0". -/
def natToHexChars (n : Nat) : List Char :=
  if n = 0 then ['0'] else (natDigitsBE 16 n).map hexDigitChar

/-- `n.toString(10)` / `BN.prototype.toString(10)` for a non-negative
integer: minimal decimal digits, with zero rendered as "0". -/
def natToDecChars (n : Nat) : List Char :=
  if n = 0 then ['0'] else (natDigitsBE 10 n).map hexDigitChar

/-- Value of a string of decimal digit characters (the parse performed by
`new BN(-, 10)` on a validated digit string). -/
def decCharsVal (l : List Char) : Nat :=
  digitsValBE 10 (l.map charHexVal)

/-- Value of a string of hexadecimal digit characters. -/
def hexCharsVal (l : List Char) : Nat :=
  digitsValBE 16 (l.map charHexVal)

/-- `String.prototype.padStart(len, c)` on a one-character pad string. -/
def jsPadStart (s : List Char) (len : Nat) (c : Char) : List Char :=
  List.replicate (len - s.length) c ++ s

/-- `String.prototype.padEnd(len, c)` on a one-character pad string. -/
def jsPadEnd (s : List Char) (len : Nat) (c : Char) : List Char :=
  s ++ List.replicate (len - s.length) c

/-- isHexString (part_016): the test `/^(0x)?[a-fA-F0-9]*$/.test(hex)`. -/
def isHexString (hex : List Char) : Bool :=
  match hex with
  | '0' :: 'x' :: rest => rest.all isHexDigitChar
  | _ => hex.all isHexDigitChar

/-- strip0x (part_016): `str.replace(/^0x/, "")`. -/
def strip0x (str : List Char) : List Char :=
  match str with
  | '0' :: 'x' :: rest => rest
  | _ => str

/-- prepend0x (part_016): `str.replace(/^(0x)?/, "0x")`. -/
def prepend0x (str : List Char) : List Char :=
  match str with
  | '0' :: 'x' :: _ => str
  | _ => '0' :: 'x' :: str

/-- ensureHexString (part_016).  The `varName` parameter is fixed to its
default "Given value"; the embedded error message keeps the source text. -/
def ensureHexString (hex : List Char) (addPrefix evenLength : Bool) :
    Except JsErr (List Char) :=
  let h := strip0x hex
  if !isHexString h then
    .error (.typeError "Given value is not a valid hexadecimal string")
  else
    let h := if evenLength && h.length % 2 != 0 then '0' :: h else h
    .ok (if addPrefix then prepend0x h else strip0x h)

/-- hexStringFromBuffer (part_016): `buf.toString("hex")`, optionally
"0x"-prefixed. -/
def hexStringFromBuffer (buf : List Nat) (addPrefix : Bool) : List Char :=
  (if addPrefix then ['0', 'x'] else []) ++
    (buf.map (fun x => [hexDigitChar (x / 16), hexDigitChar (x % 16)])).flatten

/-- `Buffer.from(h, "hex")` on an even-length string of hex digits (the
callers guarantee even length via `ensureHexString`'s `evenLength`). -/
def bytesFromHexChars : List Char → List Nat
  | a :: b :: rest => (16 * charHexVal a + charHexVal b) :: bytesFromHexChars rest
  | _ => []

/-- bufferFromHexString (part_016). -/
def bufferFromHexString (hex : List Char) : Except JsErr (List Nat) :=
  (ensureHexString hex false true).map bytesFromHexChars

/-- `Number.isInteger` on the rational embedding of a JS number. -/
def jsIsInteger (q : ℚ) : Bool :=
  q.den == 1

/-- ensurePositiveInteger (part_016), with the default `varName`. -/
def ensurePositiveInteger (num : ℚ) : Except JsErr ℚ :=
  if !jsIsInteger num then
    .error (.typeError "Given value is not an integer")
  else if num < 0 then
    .error (.typeError "Given value must be positive")
  else
    .ok num

/-- hexStringFromNumber (part_016). -/
def hexStringFromNumber (num : ℚ) (addPrefix : Bool) :
    Except JsErr (List Char) :=
  match ensurePositiveInteger num with
  | .error e => .error e
  | .ok _ =>
    let hex := natToHexChars num.num.toNat
    .ok (if addPrefix then '0' :: 'x' :: hex else hex)

/-- bufferFromNumber (part_016). -/
def bufferFromNumber (num : ℚ) : Except JsErr (List Nat) :=
  match hexStringFromNumber num false with
  | .error e => .error e
  | .ok hex => if hex = ['0'] then .ok [] else bufferFromHexString hex

/-- `BN.prototype.toString(16)`: minimal hex digits with a leading minus
sign for negative values. -/
def bnToHexChars (bn : ℤ) : List Char :=
  if bn < 0 then '-' :: natToHexChars bn.natAbs else natToHexChars bn.toNat

/-- hexStringFromBN (part_016); the `BN.isBN` guard cannot fail in the
typed embedding. -/
def hexStringFromBN (bn : ℤ) (addPrefix : Bool) : List Char :=
  let hex := bnToHexChars bn
  if addPrefix then '0' :: 'x' :: hex else hex

/-- bufferFromBN (part_016). -/
def bufferFromBN (bn : ℤ) : Except JsErr (List Nat) :=
  let hex := hexStringFromBN bn false
  if hex = ['0'] then .ok [] else bufferFromHexString hex

/-- `Number.MAX_SAFE_INTEGER`. -/
def MAX_SAFE_INTEGER : ℚ := 2 ^ 53 - 1

/-- `Number.parseInt(h, 16)` on a string of hexadecimal digit characters:
NaN when the string is empty, its value otherwise.  (The float rounding
of values at or above 2^53 is not modeled; it cannot change the outcome
of the only comparison applied to the result, against
`Number.MAX_SAFE_INTEGER`, because every integer at or above 2^53 rounds
to a float at or above 2^53.) -/
def jsParseIntHex (h : List Char) : JsNumber :=
  if h = [] then .nan else .num ((hexCharsVal h : ℕ) : ℚ)

/-- The comparison `num > bound`, false when `num` is NaN. -/
def jsGreaterThan (num : JsNumber) (bound : ℚ) : Bool :=
  match num with
  | .nan => false
  | .num q => bound < q

/-- numberFromHexString (part_016). -/
def numberFromHexString (hex : List Char) : Except JsErr JsNumber :=
  match ensureHexString hex false false with
  | .error e => .error e
  | .ok h =>
    let num := jsParseIntHex h
    if jsGreaterThan num MAX_SAFE_INTEGER then
      .error (.rangeError "Number too large")
    else
      .ok num

/-- The regex test `/^\d*(\.\d*)?$/.test(s)`: a (possibly empty) run of
digits, optionally followed by a dot and another (possibly empty) run of
digits. -/
def decRegex (s : List Char) : Bool :=
  match s.dropWhile isDigitChar with
  | [] => true
  | c :: rest => c == '.' && rest.all isDigitChar

/-- `String.prototype.startsWith` on a one-character search string. -/
def jsStartsWith (c : Char) (s : List Char) : Bool :=
  match s with
  | [] => false
  | a :: _ => a == c

/-- ensurePositiveDecimalString (part_016), with the default `varName`. -/
def ensurePositiveDecimalString (decimalNumber : List Char) :
    Except JsErr (List Char) :=
  if jsStartsWith '-' decimalNumber then
    .error (.typeError "Given value must be positive")
  else if decimalNumber = [] || !decRegex decimalNumber then
    .error (.typeError "Given value does not contain a valid decimal number")
  else
    .ok decimalNumber

/-- `s.split(".")` destructured into its first two components, as in
`let [whole, fractional] = decimalNumber.split(".")`: the part before the
first dot, and (when a dot occurs) the part between the first dot and the
next dot or the end. -/
def jsSplitDot (s : List Char) : List Char × Option (List Char) :=
  let w := s.takeWhile (fun c => !(c == '.'))
  match s.dropWhile (fun c => !(c == '.')) with
  | [] => (w, none)
  | _ :: rest => (w, some (rest.takeWhile (fun c => !(c == '.'))))

/-- bnFromDecimalString (part_016), with the default `varName`. -/
def bnFromDecimalString (decimalNumber : List Char) (decimalPlaces : Nat) :
    Except JsErr ℤ :=
  match ensurePositiveDecimalString decimalNumber with
  | .error e => .error e
  | .ok s =>
    let (w, f) := jsSplitDot s
    let whole := if w = [] then ['0'] else w
    let fractional0 :=
      match f with
      | none => ['0']
      | some fr => if fr = [] then ['0'] else fr
    let fractional := jsPadEnd (fractional0.take decimalPlaces) decimalPlaces '0'
    .ok (Int.ofNat (decCharsVal (whole ++ fractional)))

/-- `str.replace(/\.0+$/, "")`: remove a trailing run of at least one '0'
together with the dot immediately before it. -/
def stripDotZerosSuffix (s : List Char) : List Char :=
  match s.reverse.dropWhile (fun c => c == '0') with
  | c :: rest =>
    if c == '.' && !(s.reverse.takeWhile (fun c => c == '0')).isEmpty
    then rest.reverse else s
  | [] => s

/-- `str.replace(/0+$/, "")`: remove all trailing '0' characters. -/
def dropTrailingZeros (s : List Char) : List Char :=
  (s.reverse.dropWhile (fun c => c == '0')).reverse

/-- The final two statements of decimalStringFromBN (part_016): remove a
".0...0" suffix, and, if a decimal point remains, trailing zeros. -/
def decimalStringFinish (str : List Char) : List Char :=
  let str2 := stripDotZerosSuffix str
  if str2.contains '.' then dropTrailingZeros str2 else str2

/-- decimalStringFromBN (part_016). -/
def decimalStringFromBN (bn : ℤ) (decimalPlaces : Nat) :
    Except JsErr (List Char) :=
  if bn < 0 then .error (.jsError "Number must be positive")
  else if bn = 0 then .ok ['0']
  else
    let str := jsPadStart (natToDecChars bn.toNat) (decimalPlaces + 1) '0'
    if decimalPlaces = 0 then .ok str
    else .ok (decimalStringFinish
      (str.take (str.length - decimalPlaces) ++
        '.' :: str.drop (str.length - decimalPlaces)))

/-- ONE_ETHER (part_016). -/
def ONE_ETHER : ℤ := 1000000000000000000

/-- MAX_UINT256 (part_016). -/
def MAX_UINT256 : ℤ := 2 ^ 256 - 1

theorem digitsValBE_foldl_acc (b : ℕ) (l : List ℕ) (a : ℕ) :
    l.foldl (fun x d => b * x + d) a = a * b ^ l.length + digitsValBE b l := by
  induction l generalizing a with
  | nil => simp [digitsValBE]
  | cons d l ih =>
    simp only [List.foldl_cons, List.length_cons, digitsValBE, Nat.mul_zero,
      Nat.zero_add] at ih ⊢
    rw [ih (b * a + d), ih d]
    ring

theorem digitsValBE_cons (b d : ℕ) (l : List ℕ) :
    digitsValBE b (d :: l) = d * b ^ l.length + digitsValBE b l := by
  have h := digitsValBE_foldl_acc b l d
  simp only [digitsValBE, List.foldl_cons, Nat.mul_zero, Nat.zero_add] at h ⊢
  exact h

theorem digitsValBE_append (b : ℕ) (l1 l2 : List ℕ) :
    digitsValBE b (l1 ++ l2) =
      digitsValBE b l1 * b ^ l2.length + digitsValBE b l2 := by
  simp only [digitsValBE, List.foldl_append]
  exact digitsValBE_foldl_acc b l2 _

theorem digitsValBE_replicate_zero (b k : ℕ) (l : List ℕ) :
    digitsValBE b (List.replicate k 0 ++ l) = digitsValBE b l := by
  rw [digitsValBE_append]
  have hz : digitsValBE b (List.replicate k 0) = 0 := by
    induction k with
    | zero => rfl
    | succ k ih => rw [List.replicate_succ, digitsValBE_cons, ih]; ring
  rw [hz]; ring

theorem natDigitsBEAux_val (b : ℕ) (hb : 2 ≤ b) :
    ∀ fuel n, n ≤ fuel → digitsValBE b (natDigitsBEAux b fuel n) = n := by
  intro fuel
  induction fuel with
  | zero =>
    intro n hn
    have : n = 0 := by omega
    simp [this, natDigitsBEAux, digitsValBE]
  | succ fuel ih =>
    intro n hn
    by_cases h0 : n = 0
    · simp [h0, natDigitsBEAux, digitsValBE]
    · have hdiv : n / b ≤ fuel := by
        have := Nat.div_lt_self (Nat.pos_of_ne_zero h0) (by omega : 1 < b)
        omega
      simp only [natDigitsBEAux, h0, if_false]
      rw [digitsValBE_append, ih (n / b) hdiv]
      have h1 : digitsValBE b [n % b] = n % b := by
        simp [digitsValBE]
      have h2 : ([n % b] : List ℕ).length = 1 := rfl
      rw [h1, h2, pow_one, Nat.mul_comm]
      have := Nat.div_add_mod n b
      omega

theorem natDigitsBE_val (b n : ℕ) (hb : 2 ≤ b) :
    digitsValBE b (natDigitsBE b n) = n :=
  natDigitsBEAux_val b hb n n le_rfl

theorem natDigitsBEAux_lt (b : ℕ) (hb : 0 < b) :
    ∀ fuel n, ∀ d ∈ natDigitsBEAux b fuel n, d < b := by
  intro fuel
  induction fuel with
  | zero => intro n d hd; simp [natDigitsBEAux] at hd
  | succ fuel ih =>
    intro n d hd
    by_cases h0 : n = 0
    · simp [h0, natDigitsBEAux] at hd
    · simp only [natDigitsBEAux, h0, if_false, List.mem_append,
        List.mem_singleton] at hd
      rcases hd with hd | hd
      · exact ih (n / b) d hd
      · rw [hd]; exact Nat.mod_lt n hb

theorem natDigitsBE_lt (b n : ℕ) (hb : 0 < b) :
    ∀ d ∈ natDigitsBE b n, d < b :=
  natDigitsBEAux_lt b hb n n

theorem charHexVal_hexDigitChar : ∀ d, d < 16 → charHexVal (hexDigitChar d) = d := by
  decide

theorem isHexDigitChar_hexDigitChar : ∀ d, d < 16 →
    isHexDigitChar (hexDigitChar d) = true := by
  decide

theorem isDigitChar_hexDigitChar : ∀ d, d < 10 →
    isDigitChar (hexDigitChar d) = true := by
  decide

theorem charHexVal_lt16 (c : Char) : charHexVal c < 16 := by
  rw [charHexVal.eq_def]
  split <;> omega

theorem hexCharsVal_natToHexChars (n : ℕ) :
    hexCharsVal (natToHexChars n) = n := by
  by_cases h0 : n = 0
  · subst h0; decide
  · unfold natToHexChars hexCharsVal
    rw [if_neg h0, List.map_map]
    have hmap : (natDigitsBE 16 n).map (charHexVal ∘ hexDigitChar) =
        (natDigitsBE 16 n).map id := by
      apply List.map_congr_left
      intro d hd
      have := natDigitsBE_lt 16 n (by omega) d hd
      simp [charHexVal_hexDigitChar d this]
    rw [hmap, List.map_id]
    exact natDigitsBE_val 16 n (by omega)

theorem decCharsVal_natToDecChars (n : ℕ) :
    decCharsVal (natToDecChars n) = n := by
  by_cases h0 : n = 0
  · subst h0; decide
  · unfold natToDecChars decCharsVal
    rw [if_neg h0, List.map_map]
    have hmap : (natDigitsBE 10 n).map (charHexVal ∘ hexDigitChar) =
        (natDigitsBE 10 n).map id := by
      apply List.map_congr_left
      intro d hd
      have := natDigitsBE_lt 10 n (by omega) d hd
      simp [charHexVal_hexDigitChar d (by omega)]
    rw [hmap, List.map_id]
    exact natDigitsBE_val 10 n (by omega)

theorem natToHexChars_all_hexdigit (n : ℕ) :
    ∀ c ∈ natToHexChars n, isHexDigitChar c = true := by
  by_cases h0 : n = 0
  · subst h0; decide
  · unfold natToHexChars
    rw [if_neg h0]
    intro c hc
    rcases List.mem_map.mp hc with ⟨d, hd, rfl⟩
    exact isHexDigitChar_hexDigitChar d (natDigitsBE_lt 16 n (by omega) d hd)

theorem natToDecChars_all_digit (n : ℕ) :
    ∀ c ∈ natToDecChars n, isDigitChar c = true := by
  by_cases h0 : n = 0
  · subst h0; decide
  · unfold natToDecChars
    rw [if_neg h0]
    intro c hc
    rcases List.mem_map.mp hc with ⟨d, hd, rfl⟩
    exact isDigitChar_hexDigitChar d (natDigitsBE_lt 10 n (by omega) d hd)

theorem strip0x_of_all_hexdigit (l : List Char)
    (h : ∀ c ∈ l, isHexDigitChar c = true) : strip0x l = l := by
  rw [strip0x.eq_def]
  split
  · exact absurd (h 'x' (by simp)) (by decide)
  · rfl

theorem isHexString_of_all_hexdigit (l : List Char)
    (h : ∀ c ∈ l, isHexDigitChar c = true) : isHexString l = true := by
  rw [isHexString.eq_def]
  split
  · exact absurd (h 'x' (by simp)) (by decide)
  · simpa [List.all_eq_true] using h

theorem bytesFromHexChars_length :
    ∀ l : List Char, (bytesFromHexChars l).length = l.length / 2
  | [] => rfl
  | [a] => by simp [bytesFromHexChars]
  | a :: b :: rest => by
    simp only [bytesFromHexChars, List.length_cons,
      bytesFromHexChars_length rest]
    omega

theorem bytesFromHexChars_lt :
    ∀ l : List Char, ∀ x ∈ bytesFromHexChars l, x < 256
  | [] => by intro x hx; simp [bytesFromHexChars] at hx
  | [a] => by intro x hx; simp [bytesFromHexChars] at hx
  | a :: b :: rest => by
    intro x hx
    simp only [bytesFromHexChars, List.mem_cons] at hx
    rcases hx with rfl | hx
    · have ha := charHexVal_lt16 a
      have hb := charHexVal_lt16 b
      omega
    · exact bytesFromHexChars_lt rest x hx

theorem bytesFromHexChars_val :
    ∀ l : List Char, l.length % 2 = 0 →
      digitsValBE 256 (bytesFromHexChars l) = hexCharsVal l
  | [] => by intro; rfl
  | [a] => by intro h; simp at h
  | a :: b :: rest => by
    intro h
    have heven : rest.length % 2 = 0 := by
      simp only [List.length_cons] at h; omega
    have ih := bytesFromHexChars_val rest heven
    simp only [bytesFromHexChars, hexCharsVal, List.map_cons] at ih ⊢
    rw [digitsValBE_cons, digitsValBE_cons, digitsValBE_cons, ih,
      bytesFromHexChars_length rest]
    simp only [List.length_cons, List.length_map]
    have hpow : (256 : ℕ) ^ (rest.length / 2) = 16 ^ rest.length := by
      have h2 : (256 : ℕ) = 16 ^ 2 := by norm_num
      rw [h2, ← pow_mul]
      congr 1
      omega
    rw [hpow]
    ring

theorem hexCharsVal_cons_zero (l : List Char) :
    hexCharsVal ('0' :: l) = hexCharsVal l := by
  simp only [hexCharsVal, List.map_cons]
  rw [digitsValBE_cons]
  simp [charHexVal]

theorem ensureHexString_hexdigits (l : List Char)
    (h : ∀ c ∈ l, isHexDigitChar c = true) :
    ensureHexString l false true =
      .ok (if (l.length % 2 != 0) = true then '0' :: l else l) := by
  have hall : ∀ c ∈ '0' :: l, isHexDigitChar c = true := by
    intro c hc
    rcases List.mem_cons.mp hc with rfl | hc
    · decide
    · exact h c hc
  cases h2 : (l.length % 2 != 0) with
  | false =>
    simp [ensureHexString, strip0x_of_all_hexdigit l h,
      isHexString_of_all_hexdigit l h, h2]
  | true =>
    simp [ensureHexString, strip0x_of_all_hexdigit l h,
      isHexString_of_all_hexdigit l h, h2, strip0x_of_all_hexdigit _ hall]

theorem bufferFromHexString_hexdigits (l : List Char)
    (h : ∀ c ∈ l, isHexDigitChar c = true) :
    ∃ bs, bufferFromHexString l = .ok bs ∧
      digitsValBE 256 bs = hexCharsVal l ∧ (∀ x ∈ bs, x < 256) := by
  unfold bufferFromHexString
  rw [ensureHexString_hexdigits l h]
  cases h2 : (l.length % 2 != 0) with
  | false =>
    refine ⟨bytesFromHexChars l, by simp [h2, Except.map], ?_,
      bytesFromHexChars_lt l⟩
    have heven : l.length % 2 = 0 := by simpa using h2
    exact bytesFromHexChars_val l heven
  | true =>
    refine ⟨bytesFromHexChars ('0' :: l), by simp [h2, Except.map], ?_,
      bytesFromHexChars_lt _⟩
    have hodd : l.length % 2 = 1 := by
      have := bne_iff_ne.mp h2
      omega
    rw [bytesFromHexChars_val ('0' :: l) (by simp only [List.length_cons]; omega),
      hexCharsVal_cons_zero]

theorem bufferCore (k : ℕ) :
    ∃ bs, (if natToHexChars k = ['0']
        then (Except.ok [] : Except JsErr (List Nat))
        else bufferFromHexString (natToHexChars k)) = .ok bs ∧
      digitsValBE 256 bs = k ∧ ∀ x ∈ bs, x < 256 := by
  by_cases h0 : natToHexChars k = ['0']
  · have hk : k = 0 := by
      have hv := hexCharsVal_natToHexChars k
      rw [h0] at hv
      simpa using hv.symm
    exact ⟨[], by rw [if_pos h0], by simp [digitsValBE, hk], by simp⟩
  · rw [if_neg h0]
    obtain ⟨bs, h1, h2, h3⟩ :=
      bufferFromHexString_hexdigits _ (natToHexChars_all_hexdigit k)
    exact ⟨bs, h1, by rw [h2, hexCharsVal_natToHexChars], h3⟩

theorem ensurePositiveInteger_natCast (n : ℕ) :
    ensurePositiveInteger (n : ℚ) = .ok (n : ℚ) := by
  unfold ensurePositiveInteger jsIsInteger
  rw [Rat.den_natCast]
  simp [not_lt.mpr (Nat.cast_nonneg n : (0 : ℚ) ≤ n)]

theorem hexStringFromNumber_natCast (n : ℕ) :
    hexStringFromNumber (n : ℚ) false = .ok (natToHexChars n) := by
  unfold hexStringFromNumber
  rw [ensurePositiveInteger_natCast]
  simp [Rat.num_natCast]

theorem bufferFromNumber_natCast (n : ℕ) :
    ∃ bs, bufferFromNumber (n : ℚ) = .ok bs ∧
      digitsValBE 256 bs = n ∧ ∀ x ∈ bs, x < 256 := by
  unfold bufferFromNumber
  rw [hexStringFromNumber_natCast]
  exact bufferCore n

theorem bnToHexChars_nonneg (m : ℤ) (hm : 0 ≤ m) :
    bnToHexChars m = natToHexChars m.toNat := by
  unfold bnToHexChars
  rw [if_neg (not_lt.mpr hm)]

theorem bufferFromBN_nonneg (m : ℤ) (hm : 0 ≤ m) :
    ∃ bs, bufferFromBN m = .ok bs ∧
      digitsValBE 256 bs = m.toNat ∧ ∀ x ∈ bs, x < 256 := by
  have h := bufferCore m.toNat
  simpa [bufferFromBN, hexStringFromBN, bnToHexChars_nonneg m hm] using h

theorem hexPairs_all_hexdigit (b : List Nat) (hb : ∀ x ∈ b, x < 256) :
    ∀ c ∈ (b.map (fun x => [hexDigitChar (x / 16), hexDigitChar (x % 16)])).flatten,
      isHexDigitChar c = true := by
  induction b with
  | nil => simp
  | cons x rest ih =>
    intro c hc
    have hx := hb x (by simp)
    simp only [List.map_cons, List.flatten_cons, List.mem_append,
      List.mem_cons, List.mem_singleton] at hc
    rcases hc with (rfl | rfl | h) | hc
    · exact isHexDigitChar_hexDigitChar _ (by omega)
    · exact isHexDigitChar_hexDigitChar _ (by omega)
    · simp at h
    · exact ih (fun y hy => hb y (by simp [hy])) c hc

theorem hexPairs_length (b : List Nat) :
    ((b.map (fun x => [hexDigitChar (x / 16), hexDigitChar (x % 16)])).flatten).length
      = 2 * b.length := by
  induction b with
  | nil => simp
  | cons x rest ih => simp [ih]; omega

theorem bytesFromHexChars_hexPairs (b : List Nat) (hb : ∀ x ∈ b, x < 256) :
    bytesFromHexChars
        ((b.map (fun x => [hexDigitChar (x / 16), hexDigitChar (x % 16)])).flatten)
      = b := by
  induction b with
  | nil => rfl
  | cons x rest ih =>
    have hx := hb x (by simp)
    have ihh := ih (fun y hy => hb y (by simp [hy]))
    show (16 * charHexVal (hexDigitChar (x / 16)) +
          charHexVal (hexDigitChar (x % 16))) ::
        bytesFromHexChars
          ((rest.map (fun x => [hexDigitChar (x / 16), hexDigitChar (x % 16)])).flatten)
      = x :: rest
    rw [charHexVal_hexDigitChar _ (by omega : x / 16 < 16),
      charHexVal_hexDigitChar _ (by omega : x % 16 < 16), ihh]
    congr 1
    omega

theorem strip0x_cons_0x (l : List Char) : strip0x ('0' :: 'x' :: l) = l := rfl

theorem ensureHexString_0x_hexdigits (l : List Char)
    (h : ∀ c ∈ l, isHexDigitChar c = true) :
    ensureHexString ('0' :: 'x' :: l) false true =
      .ok (if (l.length % 2 != 0) = true then '0' :: l else l) := by
  have hall : ∀ c ∈ '0' :: l, isHexDigitChar c = true := by
    intro c hc
    rcases List.mem_cons.mp hc with rfl | hc
    · decide
    · exact h c hc
  cases h2 : (l.length % 2 != 0) with
  | false =>
    have h2m : l.length % 2 = 0 := by simpa using h2
    simp [ensureHexString, strip0x_cons_0x, isHexString_of_all_hexdigit l h,
      h2m, strip0x_of_all_hexdigit l h]
  | true =>
    have h2m : l.length % 2 = 1 := by
      have := bne_iff_ne.mp h2
      omega
    simp [ensureHexString, strip0x_cons_0x, isHexString_of_all_hexdigit l h,
      h2m, strip0x_of_all_hexdigit _ hall]

theorem bufferFromHexString_hexStringFromBuffer (b : List Nat)
    (hb : ∀ x ∈ b, x < 256) :
    bufferFromHexString (hexStringFromBuffer b true) = .ok b := by
  have hbody := hexPairs_all_hexdigit b hb
  have hShape : hexStringFromBuffer b true =
      '0' :: 'x' :: (b.map (fun x => [hexDigitChar (x / 16), hexDigitChar (x % 16)])).flatten := by
    simp [hexStringFromBuffer]
  have heven : (((b.map (fun x => [hexDigitChar (x / 16), hexDigitChar (x % 16)])).flatten).length % 2 != 0) = false := by
    rw [hexPairs_length]
    simp [Nat.mul_mod_right]
  rw [bufferFromHexString, hShape, ensureHexString_0x_hexdigits _ hbody, heven]
  simp only [Bool.false_eq_true, if_false, Except.map]
  rw [bytesFromHexChars_hexPairs b hb]

/-- C10: on inputs consisting only of an optional 0x prefix with no hex
digits ("" and "0x"), numberFromHexString returns NaN rather than an
integer or an error: the empty string passes `isHexString`, `parseInt`
yields NaN, and the overflow guard `num > Number.MAX_SAFE_INTEGER` is
false for NaN, so callers (such as getGasPrice and getTransactionCount,
which return this value directly) can receive NaN. -/
theorem numberFromHexString_empty_nan :
    numberFromHexString [] = .ok JsNumber.nan ∧
    numberFromHexString ['0', 'x'] = .ok JsNumber.nan := by
  constructor <;> rfl

theorem takeWhile_append_stop (p : Char → Bool) (x : Char) (rest : List Char)
    (hx : p x = false) :
    ∀ w : List Char, (∀ c ∈ w, p c = true) →
      ((w ++ x :: rest).takeWhile p = w ∧
        (w ++ x :: rest).dropWhile p = x :: rest)
  | [], _ => by simp [List.takeWhile, List.dropWhile, hx]
  | c :: w, hw => by
    have hc : p c = true := hw c (by simp)
    have ih := takeWhile_append_stop p x rest hx w
      (fun d hd => hw d (by simp [hd]))
    simp only [List.cons_append, List.takeWhile_cons, List.dropWhile_cons, hc,
      if_true, ih.1, ih.2, and_self]

theorem dropWhile_mem_subset (p : Char → Bool) :
    ∀ l : List Char, ∀ c ∈ l.dropWhile p, c ∈ l
  | [], c, hc => by simp [List.dropWhile] at hc
  | a :: l, c, hc => by
    rw [List.dropWhile_cons] at hc
    by_cases ha : p a = true
    · rw [if_pos ha] at hc
      exact List.mem_cons_of_mem a (dropWhile_mem_subset p l c hc)
    · rw [if_neg ha] at hc
      exact hc

theorem dropWhile_append_of_ne_nil (p : Char → Bool) (b : List Char) :
    ∀ a : List Char, a.dropWhile p ≠ [] →
      (a ++ b).dropWhile p = a.dropWhile p ++ b
  | [], h => by simp [List.dropWhile] at h
  | c :: a, h => by
    rw [List.dropWhile_cons] at h ⊢
    by_cases hc : p c = true
    · rw [if_pos hc] at h ⊢
      rw [List.cons_append, List.dropWhile_cons, if_pos hc]
      exact dropWhile_append_of_ne_nil p b a h
    · rw [if_neg hc]
      rw [List.cons_append, List.dropWhile_cons, if_neg hc]

theorem dropWhile_head_not (p : Char → Bool) :
    ∀ (l : List Char) (c : Char) (r : List Char),
      l.dropWhile p = c :: r → p c = false
  | [], c, r, h => by simp [List.dropWhile] at h
  | a :: l, c, r, h => by
    rw [List.dropWhile_cons] at h
    by_cases ha : p a = true
    · rw [if_pos ha] at h
      exact dropWhile_head_not p l c r h
    · rw [if_neg ha] at h
      cases h
      exact Bool.eq_false_iff.mpr ha

theorem decCharsVal_append (a b : List Char) :
    decCharsVal (a ++ b) = decCharsVal a * 10 ^ b.length + decCharsVal b := by
  simp only [decCharsVal, List.map_append]
  rw [digitsValBE_append]
  simp

theorem decCharsVal_zeros (l : List Char) (h : ∀ c ∈ l, c = '0') :
    decCharsVal l = 0 := by
  induction l with
  | nil => rfl
  | cons c l ih =>
    have hc : c = '0' := h c (by simp)
    subst hc
    simp only [decCharsVal, List.map_cons] at ih ⊢
    rw [digitsValBE_cons, ih (fun d hd => h d (by simp [hd]))]
    simp [charHexVal]

theorem decCharsVal_replicate_zero (k : ℕ) (l : List Char) :
    decCharsVal (List.replicate k '0' ++ l) = decCharsVal l := by
  rw [decCharsVal_append, decCharsVal_zeros (List.replicate k '0')
    (fun c hc => (List.eq_of_mem_replicate hc))]
  ring

theorem takeWhile_all (p : Char → Bool) :
    ∀ l : List Char, (∀ c ∈ l, p c = true) →
      (l.takeWhile p = l ∧ l.dropWhile p = [])
  | [], _ => by simp
  | c :: l, h => by
    have hc : p c = true := h c (by simp)
    have ih := takeWhile_all p l (fun d hd => h d (by simp [hd]))
    simp only [List.takeWhile_cons, List.dropWhile_cons, hc, if_true, ih.1,
      ih.2, and_self]

theorem jsSplitDot_no_dot (w : List Char)
    (hw : ∀ c ∈ w, isDigitChar c = true) : jsSplitDot w = (w, none) := by
  have hp : ∀ c ∈ w, (!(c == '.')) = true := by
    intro c hc
    have hd := hw c hc
    simp only [Bool.not_eq_true', beq_eq_false_iff_ne, ne_eq]
    intro hdot
    subst hdot
    simp [isDigitChar] at hd
  have h := takeWhile_all _ w hp
  simp [jsSplitDot, h.1, h.2]

theorem jsSplitDot_dot (w f : List Char)
    (hw : ∀ c ∈ w, isDigitChar c = true)
    (hf : ∀ c ∈ f, isDigitChar c = true) :
    jsSplitDot (w ++ '.' :: f) = (w, some f) := by
  have hp : ∀ (l : List Char), (∀ c ∈ l, isDigitChar c = true) →
      ∀ c ∈ l, (!(c == '.')) = true := by
    intro l hl c hc
    have := hl c hc
    simp only [Bool.not_eq_true', beq_eq_false_iff_ne, ne_eq]
    intro hdot
    subst hdot
    simp [isDigitChar] at this
  have hstop := takeWhile_append_stop (fun c => !(c == '.')) '.' f
    (by decide) w (hp w hw)
  have hfall := takeWhile_all (fun c => !(c == '.')) f (hp f hf)
  simp [jsSplitDot, hstop.1, hstop.2, hfall.1]

theorem decRegex_digits (w : List Char)
    (hw : ∀ c ∈ w, isDigitChar c = true) : decRegex w = true := by
  simp [decRegex, (takeWhile_all isDigitChar w hw).2]

theorem decRegex_digits_dot (w f : List Char)
    (hw : ∀ c ∈ w, isDigitChar c = true)
    (hf : ∀ c ∈ f, isDigitChar c = true) :
    decRegex (w ++ '.' :: f) = true := by
  have hstop := takeWhile_append_stop isDigitChar '.' f (by decide) w hw
  simp only [decRegex, hstop.2, beq_self_eq_true, Bool.true_and,
    List.all_eq_true]
  exact hf

theorem decRegex_shape (s : List Char) (h : decRegex s = true) :
    (∀ c ∈ s, isDigitChar c = true) ∨
    ∃ w f, s = w ++ '.' :: f ∧ (∀ c ∈ w, isDigitChar c = true) ∧
      (∀ c ∈ f, isDigitChar c = true) := by
  have hsplit := List.takeWhile_append_dropWhile isDigitChar s
  unfold decRegex at h
  cases hd : s.dropWhile isDigitChar with
  | nil =>
    left
    intro c hc
    rw [hd, List.append_nil] at hsplit
    rw [← hsplit] at hc
    exact List.mem_takeWhile_imp hc
  | cons x r =>
    rw [hd] at h
    have h2 : (x == '.' && r.all isDigitChar) = true := h
    rw [Bool.and_eq_true, beq_iff_eq] at h2
    obtain ⟨rfl, hall⟩ := h2
    right
    refine ⟨s.takeWhile isDigitChar, r, ?_, ?_, ?_⟩
    · rw [← hd, hsplit]
    · intro c hc
      exact List.mem_takeWhile_imp hc
    · exact fun c hc => List.all_eq_true.mp hall c hc

theorem reverse_append_dot (w f : List Char) :
    (w ++ '.' :: f).reverse = f.reverse ++ '.' :: w.reverse := by
  rw [List.reverse_append, List.reverse_cons, List.append_assoc,
    List.singleton_append]

theorem stripDotZeros_all_zero (w f : List Char) (hne : f ≠ [])
    (hz : ∀ c ∈ f, c = '0') :
    stripDotZerosSuffix (w ++ '.' :: f) = w := by
  have hzr : ∀ c ∈ f.reverse, (fun c => c == '0') c = true := by
    intro c hc
    simp only [beq_iff_eq]
    exact hz c (List.mem_reverse.mp hc)
  have hstop := takeWhile_append_stop (fun c => c == '0') '.' w.reverse
    (by decide) f.reverse hzr
  have hrne : f.reverse ≠ [] := by
    intro h
    exact hne (by simpa using congrArg List.reverse h)
  unfold stripDotZerosSuffix
  rw [reverse_append_dot, hstop.2, hstop.1]
  simp [List.isEmpty_iff, hrne, List.reverse_reverse]

theorem stripDotZeros_not_all_zero (w f : List Char)
    (hnz : ∃ c ∈ f, ¬ c = '0')
    (hfdig : ∀ c ∈ f, isDigitChar c = true) :
    stripDotZerosSuffix (w ++ '.' :: f) = w ++ '.' :: f := by
  have hne : f.reverse.dropWhile (fun c => c == '0') ≠ [] := by
    intro h
    obtain ⟨c, hc, hcne⟩ := hnz
    have hsplit := List.takeWhile_append_dropWhile (fun c => c == '0') f.reverse
    rw [h, List.append_nil] at hsplit
    have : c ∈ f.reverse.takeWhile (fun c => c == '0') := by
      rw [hsplit]; exact List.mem_reverse.mpr hc
    have := List.mem_takeWhile_imp this
    simp only [beq_iff_eq] at this
    exact hcne this
  obtain ⟨c0, r0, hd⟩ : ∃ c0 r0,
      f.reverse.dropWhile (fun c => c == '0') = c0 :: r0 := by
    cases h : f.reverse.dropWhile (fun c => c == '0') with
    | nil => exact absurd h hne
    | cons a b => exact ⟨a, b, rfl⟩
  have hc0f : c0 ∈ f := by
    have := dropWhile_mem_subset (fun c => c == '0') f.reverse c0 (by rw [hd]; simp)
    exact List.mem_reverse.mp this
  have hc0dig := hfdig c0 hc0f
  have hc0dot : (c0 == '.') = false := by
    simp only [beq_eq_false_iff_ne, ne_eq]
    intro h
    subst h
    simp [isDigitChar] at hc0dig
  unfold stripDotZerosSuffix
  rw [reverse_append_dot, dropWhile_append_of_ne_nil _ _ _ hne, hd,
    List.cons_append]
  simp [hc0dot]

theorem dropTrailingZeros_append_dot (w f : List Char)
    (hne : f.reverse.dropWhile (fun c => c == '0') ≠ []) :
    dropTrailingZeros (w ++ '.' :: f) = w ++ '.' :: dropTrailingZeros f := by
  unfold dropTrailingZeros
  rw [reverse_append_dot, dropWhile_append_of_ne_nil _ _ _ hne,
    List.reverse_append, List.reverse_cons, List.reverse_reverse,
    List.append_assoc, List.singleton_append]

theorem dropTrailingZeros_spec (f : List Char) :
    ∃ k, f = dropTrailingZeros f ++ List.replicate k '0' := by
  refine ⟨(f.reverse.takeWhile (fun c => c == '0')).length, ?_⟩
  have hall : ∀ c ∈ f.reverse.takeWhile (fun c => c == '0'), c = '0' := by
    intro c hc
    have := List.mem_takeWhile_imp hc
    simpa using this
  have hrep := List.eq_replicate_of_mem hall
  have h1 : f = (f.reverse.dropWhile (fun c => c == '0')).reverse ++
      (f.reverse.takeWhile (fun c => c == '0')).reverse := by
    rw [← List.reverse_append, List.takeWhile_append_dropWhile,
      List.reverse_reverse]
  conv_lhs => rw [h1]
  unfold dropTrailingZeros
  congr 1
  conv_lhs => rw [hrep]
  rw [List.reverse_replicate]

theorem dropTrailingZeros_subset (f : List Char) :
    ∀ c ∈ dropTrailingZeros f, c ∈ f := by
  intro c hc
  unfold dropTrailingZeros at hc
  rw [List.mem_reverse] at hc
  exact List.mem_reverse.mp (dropWhile_mem_subset _ f.reverse c hc)

theorem dropTrailingZeros_ne_nil (f : List Char) (hnz : ∃ c ∈ f, ¬ c = '0') :
    dropTrailingZeros f ≠ [] := by
  intro h
  obtain ⟨c, hc, hcne⟩ := hnz
  have hd : f.reverse.dropWhile (fun c => c == '0') = [] := by
    have := congrArg List.reverse h
    simpa [dropTrailingZeros] using this
  have hsplit := List.takeWhile_append_dropWhile (fun c => c == '0') f.reverse
  rw [hd, List.append_nil] at hsplit
  have hmem : c ∈ f.reverse.takeWhile (fun c => c == '0') := by
    rw [hsplit]; exact List.mem_reverse.mpr hc
  have := List.mem_takeWhile_imp hmem
  simp only [beq_iff_eq] at this
  exact hcne this

theorem digit_ne_of_not_digit {c d : Char} (h : isDigitChar c = true)
    (hd : isDigitChar d = false) : (c == d) = false := by
  simp only [beq_eq_false_iff_ne, ne_eq]
  intro heq
  subst heq
  rw [h] at hd
  exact Bool.true_eq_false.mp hd

theorem dot_not_mem_of_digits (w : List Char)
    (hw : ∀ c ∈ w, isDigitChar c = true) : '.' ∉ w := by
  intro h
  have := hw '.' h
  simp [isDigitChar] at this

theorem padEnd_zero_singleton (p : ℕ) :
    jsPadEnd ((['0'] : List Char).take p) p '0' = List.replicate p '0' := by
  cases p with
  | zero => rfl
  | succ q =>
    simp [jsPadEnd, List.replicate_succ]

theorem ensurePositiveDecimalString_digits (w : List Char)
    (hw : ∀ c ∈ w, isDigitChar c = true) (hne : w ≠ []) :
    ensurePositiveDecimalString w = .ok w := by
  have hstart : jsStartsWith '-' w = false := by
    cases w with
    | nil => exact absurd rfl hne
    | cons c r =>
      simp [jsStartsWith,
        digit_ne_of_not_digit (hw c (by simp)) (by decide : isDigitChar '-' = false)]
  unfold ensurePositiveDecimalString
  rw [hstart]
  simp [hne, decRegex_digits w hw]

theorem bnFromDecimalString_digits (w : List Char)
    (hw : ∀ c ∈ w, isDigitChar c = true) (hne : w ≠ []) (p : ℕ) :
    bnFromDecimalString w p = .ok (Int.ofNat (decCharsVal w * 10 ^ p)) := by
  have hval : decCharsVal (w ++ List.replicate p '0') = decCharsVal w * 10 ^ p := by
    rw [decCharsVal_append, decCharsVal_zeros _
      (fun c hc => List.eq_of_mem_replicate hc), List.length_replicate]
    ring
  unfold bnFromDecimalString
  rw [ensurePositiveDecimalString_digits w hw hne]
  simp only [jsSplitDot_no_dot w hw, if_neg hne, padEnd_zero_singleton, hval]

theorem bnFromDecimalString_digits_dot (w f : List Char)
    (hw : ∀ c ∈ w, isDigitChar c = true)
    (hf : ∀ c ∈ f, isDigitChar c = true)
    (hwne : w ≠ []) (hfne : f ≠ []) (p : ℕ) :
    bnFromDecimalString (w ++ '.' :: f) p =
      .ok (Int.ofNat (decCharsVal (w ++ jsPadEnd (f.take p) p '0'))) := by
  have hstart : jsStartsWith '-' (w ++ '.' :: f) = false := by
    cases w with
    | nil => exact absurd rfl hwne
    | cons c r =>
      simp [jsStartsWith,
        digit_ne_of_not_digit (hw c (by simp)) (by decide : isDigitChar '-' = false)]
  have hne2 : w ++ '.' :: f ≠ [] := by simp
  have hens : ensurePositiveDecimalString (w ++ '.' :: f) = .ok (w ++ '.' :: f) := by
    unfold ensurePositiveDecimalString
    rw [hstart]
    simp [hne2, decRegex_digits_dot w f hw hf]
  unfold bnFromDecimalString
  rw [hens]
  simp only [jsSplitDot_dot w f hw hf, if_neg hwne, if_neg hfne]

theorem natToDecChars_ne_nil (n : ℕ) : natToDecChars n ≠ [] := by
  intro h
  by_cases h0 : n = 0
  · subst h0
    simp [natToDecChars] at h
  · have hv := decCharsVal_natToDecChars n
    rw [h] at hv
    exact h0 (by simpa [decCharsVal, digitsValBE] using hv.symm)

theorem dropWhile_rev_ne_nil (f : List Char) (hnz : ∃ c ∈ f, ¬ c = '0') :
    f.reverse.dropWhile (fun c => c == '0') ≠ [] := by
  intro h
  obtain ⟨c, hc, hcne⟩ := hnz
  have hsplit := List.takeWhile_append_dropWhile (fun c => c == '0') f.reverse
  rw [h, List.append_nil] at hsplit
  have hmem : c ∈ f.reverse.takeWhile (fun c => c == '0') := by
    rw [hsplit]; exact List.mem_reverse.mpr hc
  have := List.mem_takeWhile_imp hmem
  simp only [beq_iff_eq] at this
  exact hcne this

/-- C4: for every non-negative arbitrary-precision integer n and every
number of decimal places p, converting n to a decimal string with
decimalStringFromBN and parsing it back with bnFromDecimalString returns
exactly n: the padding, decimal-point insertion and trailing-zero
stripping on output are inverted by the split, truncation and right-pad
on input. -/
theorem decimalString_roundTrip (n p : ℕ) :
    (decimalStringFromBN (n : ℤ) p).bind (fun s => bnFromDecimalString s p)
      = .ok (n : ℤ) := by
  by_cases hn0 : n = 0
  · subst hn0
    have h1 : decimalStringFromBN ((0 : ℕ) : ℤ) p = .ok ['0'] := by
      simp [decimalStringFromBN]
    rw [h1]
    show bnFromDecimalString ['0'] p = .ok (((0 : ℕ) : ℤ))
    rw [bnFromDecimalString_digits ['0'] (by decide) (by decide) p]
    simp [decCharsVal, digitsValBE, charHexVal]
  · have hddig := natToDecChars_all_digit n
    have hdval := decCharsVal_natToDecChars n
    have hlt : ¬ ((n : ℤ) < 0) := not_lt.mpr (Int.natCast_nonneg n)
    have hne0 : ¬ ((n : ℤ) = 0) := by exact_mod_cast hn0
    have h0dig : ∀ c ∈ jsPadStart (natToDecChars n) (p + 1) '0',
        isDigitChar c = true := by
      intro c hc
      rw [jsPadStart] at hc
      rcases List.mem_append.mp hc with hc | hc
      · rw [List.eq_of_mem_replicate hc]; decide
      · exact hddig c hc
    have h0val : decCharsVal (jsPadStart (natToDecChars n) (p + 1) '0') = n := by
      rw [jsPadStart, decCharsVal_replicate_zero, hdval]
    have h0len : p + 1 ≤ (jsPadStart (natToDecChars n) (p + 1) '0').length := by
      rw [jsPadStart, List.length_append, List.length_replicate]
      omega
    by_cases hp : p = 0
    · subst hp
      have h1 : decimalStringFromBN (n : ℤ) 0 =
          .ok (jsPadStart (natToDecChars n) 1 '0') := by
        unfold decimalStringFromBN
        rw [if_neg hlt, if_neg hne0]
        simp [Int.toNat_natCast]
      rw [h1]
      show bnFromDecimalString (jsPadStart (natToDecChars n) 1 '0') 0 = .ok ((n : ℕ) : ℤ)
      rw [bnFromDecimalString_digits _ h0dig
        (by intro h; rw [h] at h0len; simp at h0len) 0]
      rw [pow_zero, Nat.mul_one, h0val]
      rfl
    · set str0 := jsPadStart (natToDecChars n) (p + 1) '0' with hstr0
      set w := str0.take (str0.length - p) with hwdef
      set f := str0.drop (str0.length - p) with hfdef
      have hsplit : w ++ f = str0 := List.take_append_drop _ _
      have hflen : f.length = p := by
        rw [hfdef, List.length_drop]
        omega
      have hwlen : 0 < w.length := by
        rw [hwdef, List.length_take]
        omega
      have hwne : w ≠ [] := by
        intro h
        rw [h] at hwlen
        simp at hwlen
      have hwdig : ∀ c ∈ w, isDigitChar c = true :=
        fun c hc => h0dig c (List.take_subset _ _ hc)
      have hfdig : ∀ c ∈ f, isDigitChar c = true :=
        fun c hc => h0dig c (List.drop_subset _ _ hc)
      have hvalsum : decCharsVal w * 10 ^ p + decCharsVal f = n := by
        have happ := decCharsVal_append w f
        rw [hsplit, h0val, hflen] at happ
        omega
      have h1 : decimalStringFromBN (n : ℤ) p =
          .ok (decimalStringFinish (w ++ '.' :: f)) := by
        unfold decimalStringFromBN
        rw [if_neg hlt, if_neg hne0]
        simp only [Int.toNat_natCast, hp, if_false, ← hstr0, ← hwdef, ← hfdef]
      rw [h1]
      show bnFromDecimalString (decimalStringFinish (w ++ '.' :: f)) p = .ok ((n : ℕ) : ℤ)
      by_cases hAz : ∀ c ∈ f, c = '0'
      · have hfne : f ≠ [] := by
          intro h
          rw [h] at hflen
          simp at hflen
          omega
        have hfin : decimalStringFinish (w ++ '.' :: f) = w := by
          unfold decimalStringFinish
          rw [stripDotZeros_all_zero w f hfne hAz]
          have hdotw : '.' ∉ w := dot_not_mem_of_digits w hwdig
          have hcont : w.contains '.' = false := by simpa using hdotw
          rw [if_neg (by rw [hcont]; exact Bool.false_ne_true)]
        rw [hfin, bnFromDecimalString_digits w hwdig hwne p]
        have hfz : decCharsVal f = 0 := decCharsVal_zeros f hAz
        have hwn : decCharsVal w * 10 ^ p = n := by omega
        rw [hwn]
        rfl
      · push_neg at hAz
        have hnz : ∃ c ∈ f, ¬ c = '0' := by
          obtain ⟨c, hc, hcne⟩ := hAz
          exact ⟨c, hc, hcne⟩
        have hne' := dropWhile_rev_ne_nil f hnz
        have hf'ne : dropTrailingZeros f ≠ [] := dropTrailingZeros_ne_nil f hnz
        have hf'dig : ∀ c ∈ dropTrailingZeros f, isDigitChar c = true :=
          fun c hc => hfdig c (dropTrailingZeros_subset f c hc)
        obtain ⟨k, hk⟩ := dropTrailingZeros_spec f
        have hk2 : (dropTrailingZeros f).length + k = p := by
          have hlen := congrArg List.length hk
          rw [List.length_append, List.length_replicate] at hlen
          omega
        have hfin : decimalStringFinish (w ++ '.' :: f) =
            w ++ '.' :: dropTrailingZeros f := by
          unfold decimalStringFinish
          rw [stripDotZeros_not_all_zero w f hnz hfdig]
          have hcont : (w ++ '.' :: f).contains '.' = true := by simp
          simp [hcont, dropTrailingZeros_append_dot w f hne']
        rw [hfin, bnFromDecimalString_digits_dot w (dropTrailingZeros f)
          hwdig hf'dig hwne hf'ne p]
        have htake : (dropTrailingZeros f).take p = dropTrailingZeros f :=
          List.take_of_length_le (by omega)
        have hpad : jsPadEnd (dropTrailingZeros f) p '0' = f := by
          rw [jsPadEnd]
          have hksub : p - (dropTrailingZeros f).length = k := by omega
          rw [hksub, ← hk]
        rw [htake, hpad]
        have hval2 : decCharsVal (w ++ f) = n := by
          rw [hsplit, h0val]
        rw [hval2]
        rfl

theorem bnFromDecimalString_ok_of_ensure (s : List Char) (p : ℕ)
    (h : ensurePositiveDecimalString s = .ok s) :
    ∃ v, bnFromDecimalString s p = .ok v := by
  unfold bnFromDecimalString
  rw [h]
  split
  · rename_i e heq
    exact absurd heq (by simp)
  · split
    exact ⟨_, rfl⟩

/-- C6 counterexample: the empty string is rejected by
bnFromDecimalString (the `!decimalNumber ||` truthiness test in
ensurePositiveDecimalString throws on ""), contradicting the claim that
the empty string is accepted and yields 0. -/
theorem bnFromDecimalString_rejects_empty :
    bnFromDecimalString [] 6 =
      .error (.typeError "Given value does not contain a valid decimal number") := by
  rfl

/-- C6 amended: bnFromDecimalString(s, p) succeeds exactly for NON-EMPTY
strings matching the regex `^\d*(\.\d*)?$` (strings with a leading minus
sign fail that regex already, so the dedicated minus check adds nothing);
and on a string "w.f" of digit runs the fractional part is truncated
and/or right-padded to exactly p digits before parsing, so the value is
val(w)·10^p + val(truncate(f,p))·10^(p-|truncate(f,p)|). -/
theorem bnFromDecimalString_spec :
    (∀ (s : List Char) (p : ℕ),
        (∃ v, bnFromDecimalString s p = .ok v) ↔
          (s ≠ [] ∧ decRegex s = true)) ∧
    (∀ (w f : List Char) (p : ℕ),
        (∀ c ∈ w, isDigitChar c = true) → (∀ c ∈ f, isDigitChar c = true) →
        w ≠ [] → f ≠ [] →
        bnFromDecimalString (w ++ '.' :: f) p =
          .ok (Int.ofNat (decCharsVal w * 10 ^ p +
            decCharsVal (f.take p) * 10 ^ (p - (f.take p).length)))) := by
  constructor
  · intro s p
    constructor
    · rintro ⟨v, hv⟩
      unfold bnFromDecimalString ensurePositiveDecimalString at hv
      by_cases h1 : jsStartsWith '-' s = true
      · rw [if_pos h1] at hv
        exact absurd hv (by simp)
      · have h1f : jsStartsWith '-' s = false := by simpa using h1
        simp only [h1f, Bool.false_eq_true, if_false] at hv
        by_cases h2 : (s = [] || !decRegex s) = true
        · rw [if_pos h2] at hv
          exact absurd hv (by simp)
        · simp only [Bool.or_eq_true, decide_eq_true_eq, Bool.not_eq_true',
            not_or] at h2
          exact ⟨h2.1, by simpa using h2.2⟩
    · rintro ⟨hne, hreg⟩
      have h1 : jsStartsWith '-' s = false := by
        cases s with
        | nil => rfl
        | cons c r =>
          by_contra h
          have hc : c = '-' := by
            have : (c == '-') = true := by simpa [jsStartsWith] using h
            exact beq_iff_eq.mp this
          subst hc
          have hfalse : decRegex ('-' :: r) = false := by
            unfold decRegex
            rw [List.dropWhile_cons,
              if_neg (by decide : ¬ (isDigitChar '-' = true))]
            simp
          rw [hreg] at hfalse
          exact Bool.true_eq_false.mp hfalse
      have hens : ensurePositiveDecimalString s = .ok s := by
        unfold ensurePositiveDecimalString
        simp [h1, hne, hreg]
      exact bnFromDecimalString_ok_of_ensure s p hens
  · intro w f p hw hf hwne hfne
    rw [bnFromDecimalString_digits_dot w f hw hf hwne hfne p]
    have htl : (f.take p).length ≤ p := by
      rw [List.length_take]
      omega
    have hpadlen : (jsPadEnd (f.take p) p '0').length = p := by
      rw [jsPadEnd, List.length_append, List.length_replicate]
      omega
    congr 2
    rw [decCharsVal_append, hpadlen, jsPadEnd, decCharsVal_append,
      decCharsVal_zeros _ (fun c hc => List.eq_of_mem_replicate hc),
      List.length_replicate]
    ring

/-- C6 witness: instantiating the amended claim; "1.5" at 3 decimal
places parses to 1500 and "12.34" is accepted. -/
theorem bnFromDecimalString_spec_witness :
    bnFromDecimalString (['1'] ++ '.' :: ['5']) 3 = .ok (1500 : ℤ) ∧
    (∃ v, bnFromDecimalString ['1', '2', '.', '3', '4'] 6 = .ok v) := by
  constructor
  · have hval : Int.ofNat (decCharsVal ['1'] * 10 ^ 3 +
        decCharsVal (List.take 3 ['5']) * 10 ^ (3 - (List.take 3 ['5']).length))
        = (1500 : ℤ) := by decide
    exact (bnFromDecimalString_spec.2 ['1'] ['5'] 3 (by decide) (by decide)
      (by decide) (by decide)).trans (by rw [hval])
  · exact (bnFromDecimalString_spec.1 ['1', '2', '.', '3', '4'] 6).mpr
      (by constructor
          · decide
          · decide)

theorem except_bind_ok {α β : Type} {x : Except JsErr α} {f : α → Except JsErr β}
    {b : β} (h : x.bind f = .ok b) : ∃ a, x = .ok a ∧ f a = .ok b := by
  cases x with
  | error e => simp [Except.bind] at h
  | ok a => exact ⟨a, rfl, h⟩

/-- The raw secp256k1 signature produced by the elliptic library for a
digest (the library itself is an external collaborator): the recovery
parameter (null or 0/1) and the r and s scalars. -/
structure EcSignature where
  recoveryParam : Option Nat
  r : Nat
  s : Nat
deriving DecidableEq, Repr

/-- Account.sign (src/wallet/Account.ts): formats the elliptic signature
as v = (recoveryParam || 0) + 27 and r, s as 0x-prefixed hex strings
padded to 64 digits. -/
def Account.sign (sig : EcSignature) : Nat × List Char × List Char :=
  (sig.recoveryParam.getD 0 + 27,
   '0' :: 'x' :: jsPadStart (natToHexChars sig.r) 64 '0',
   '0' :: 'x' :: jsPadStart (natToHexChars sig.s) 64 '0')

/-- The pre-resolved inputs of Transaction.sign (part_015): the chain id
from getChainId, the resolved and validated to/data, the stored or
fetched nonce and gas price, the stored gas limit (if any), and the
eth_estimateGas result used when the gas limit is unset. -/
structure SignEnv where
  chainId : Nat
  nonce : ℚ
  gasPrice : ℤ
  gasLimit : Option ℤ
  gasEstimate : ℚ
  toAddr : Option (List Char)
  value : Option ℤ
  data : Option (List Char)

/-- The gas limit number used by Transaction.sign (part_015 lines
339-345): the stored limit if set, otherwise the estimate g when
g === 21000 and g * 1.5 otherwise. -/
def txGasLimit (env : SignEnv) : ℚ :=
  match env.gasLimit with
  | some g => (g : ℚ)
  | none =>
    if env.gasEstimate = 21000 then env.gasEstimate
    else env.gasEstimate * 1.5

/-- `to ? bufferFromHexString(to) : Buffer.alloc(0)` of Transaction.sign:
an unset (or empty) field contributes an empty byte string. -/
def bufferFromOptHex (o : Option (List Char)) : Except JsErr (List Nat) :=
  match o with
  | some t => bufferFromHexString t
  | none => .ok []

/-- `value ? bufferFromBN(value) : Buffer.alloc(0)` of Transaction.sign. -/
def bufferFromOptBN (o : Option ℤ) : Except JsErr (List Nat) :=
  match o with
  | some v => bufferFromBN v
  | none => .ok []

/-- The nine RLP fields built by Transaction.sign (part_015 lines
347-357) before signing: nonce, gas price, gas limit, to, value, data,
chainId, 0, 0, each as a minimal big-endian buffer. -/
def txBaseFields (env : SignEnv) : Except JsErr (List (List Nat)) := do
  let f0 ← bufferFromNumber env.nonce
  let f1 ← bufferFromBN env.gasPrice
  let f2 ← bufferFromNumber (txGasLimit env)
  let f3 ← bufferFromOptHex env.toAddr
  let f4 ← bufferFromOptBN env.value
  let f5 ← bufferFromOptHex env.data
  let f6 ← bufferFromNumber ((env.chainId : ℕ) : ℚ)
  pure [f0, f1, f2, f3, f4, f5, f6, [], []]

/-- Transaction.sign (part_015 lines 359-366) after hashing: the list of
RLP fields with positions 6..8 replaced by v = sig.v + chainId * 2 + 8,
r and s.  `keccakF`, `rlpEnc` and `ecSign` are the external Keccak-256,
RLP and secp256k1 primitives.  The operands of the v computation are the
integers sig.v ≤ 28 and chainId < 2^32, so the JS float arithmetic is
exact and is modeled on ℕ, cast to the number type at the
bufferFromNumber boundary. -/
def Transaction.signFields (keccakF : List Nat → List Nat)
    (rlpEnc : List (List Nat) → List Nat) (ecSign : List Nat → EcSignature)
    (env : SignEnv) : Except JsErr (List (List Nat)) := do
  let fields ← txBaseFields env
  let hash := keccakF (rlpEnc fields)
  let (v, r, s) := Account.sign (ecSign hash)
  let f6 ← bufferFromNumber ((v + env.chainId * 2 + 8 : ℕ) : ℚ)
  let f7 ← bufferFromHexString r
  let f8 ← bufferFromHexString s
  pure (fields.take 6 ++ [f6, f7, f8])

/-- Transaction.sign (part_015): the signed transaction as a 0x-prefixed
hex string of the RLP encoding of the final fields. -/
def Transaction.sign (keccakF : List Nat → List Nat)
    (rlpEnc : List (List Nat) → List Nat) (ecSign : List Nat → EcSignature)
    (env : SignEnv) : Except JsErr (List Char) :=
  (Transaction.signFields keccakF rlpEnc ecSign env).map
    (fun fs => hexStringFromBuffer (rlpEnc fs) true)

/-- keccak256 (part_020) applied to a string argument: the string is
decoded as hexadecimal bytes (bufferFromHexString) and the digest of
those bytes is returned. -/
def keccak256OfHexString (keccakF : List Nat → List Nat) (s : List Char) :
    Except JsErr (List Nat) :=
  (bufferFromHexString s).map keccakF

/-- TransactionSubmission (part_012): holds the private _txHash. -/
structure TransactionSubmission where
  txHash : List Char
deriving DecidableEq, Repr

/-- The getter `get txHash() { return this.txHash; }` of
TransactionSubmission (part_012): reading the property invokes the same
getter again, so the body re-enters itself; the first argument is the
available call-stack depth.  No depth suffices to produce a value. -/
def TransactionSubmission.txHashGetter :
    Nat → TransactionSubmission → Option (List Char)
  | 0, _ => none
  | depth + 1, ts => TransactionSubmission.txHashGetter depth ts

/-- Outcome of the eth_sendRawTransaction RPC call awaited inside
Transaction.submit: success, a JSONRPCError with a message, or any other
failure (which is not an instance of JSONRPCError). -/
inductive SubmitOutcome where
  | success
  | rpcFailure (msg : List Char)
  | otherFailure (e : JsErr)
deriving DecidableEq, Repr

/-- Whether a list has another as a contiguous substring. -/
def hasSubstring (pat : List Char) : List Char → Bool
  | [] => pat.isEmpty
  | c :: rest => pat.isPrefixOf (c :: rest) || hasSubstring pat rest

/-- The test `err.message.match(/(known|imported)/i)` of
Transaction.submit: the message contains "known" or "imported"
case-insensitively (case folding modeled by ASCII lowercasing). -/
def matchesKnownImported (msg : List Char) : Bool :=
  hasSubstring ['k', 'n', 'o', 'w', 'n'] (msg.map Char.toLower) ||
  hasSubstring ['i', 'm', 'p', 'o', 'r', 't', 'e', 'd'] (msg.map Char.toLower)

/-- Transaction.submit (part_015 lines 373-388): sign, hash the signed
transaction hex string with keccak256, send it, swallowing only
JSONRPCError failures whose message matches /(known|imported)/i, and
return a TransactionSubmission holding the hash. -/
def Transaction.submit (keccakF : List Nat → List Nat)
    (rlpEnc : List (List Nat) → List Nat) (ecSign : List Nat → EcSignature)
    (env : SignEnv) (outcome : SubmitOutcome) :
    Except JsErr TransactionSubmission := do
  let signedTx ← Transaction.sign keccakF rlpEnc ecSign env
  let hashed ← keccak256OfHexString keccakF signedTx
  let txHash := hexStringFromBuffer hashed true
  match outcome with
  | .success => pure ⟨txHash⟩
  | .rpcFailure msg =>
    if matchesKnownImported msg then pure ⟨txHash⟩
    else throw (.jsonRpcError msg)
  | .otherFailure e => throw e

theorem except_bind_ok' {α β : Type} {x : Except JsErr α} {f : α → Except JsErr β}
    {b : β} (h : (x >>= f) = .ok b) : ∃ a, x = .ok a ∧ f a = .ok b := by
  cases x with
  | error e => simp [Bind.bind, Except.bind] at h
  | ok a =>
    refine ⟨a, rfl, ?_⟩
    simpa [Bind.bind, Except.bind] using h

theorem except_map_ok {α β : Type} {x : Except JsErr α} {f : α → β} {b : β}
    (h : x.map f = .ok b) : ∃ a, x = .ok a ∧ f a = b := by
  cases x with
  | error e => simp [Except.map] at h
  | ok a =>
    refine ⟨a, rfl, ?_⟩
    simpa [Except.map] using h

theorem txBaseFields_length (env : SignEnv) (fields : List (List Nat))
    (h : txBaseFields env = .ok fields) : fields.length = 9 := by
  unfold txBaseFields at h
  obtain ⟨f0, h0, h⟩ := except_bind_ok' h
  obtain ⟨f1, h1, h⟩ := except_bind_ok' h
  obtain ⟨f2, h2, h⟩ := except_bind_ok' h
  obtain ⟨f3, h3, h⟩ := except_bind_ok' h
  obtain ⟨f4, h4, h⟩ := except_bind_ok' h
  obtain ⟨f5, h5, h⟩ := except_bind_ok' h
  obtain ⟨f6, h6, h⟩ := except_bind_ok' h
  simp only [pure, Except.pure, Except.ok.injEq] at h
  rw [← h]
  rfl

theorem list_getD_append_length {α : Type} (l1 : List α) (a : α) (t : List α)
    (d : α) : (l1 ++ a :: t).getD l1.length d = a := by
  induction l1 with
  | nil => rfl
  | cons c rest ih => simpa using ih

theorem jsPadStart_hexdigits (l : List Char)
    (h : ∀ c ∈ l, isHexDigitChar c = true) (w : ℕ) :
    ∀ c ∈ jsPadStart l w '0', isHexDigitChar c = true := by
  intro c hc
  rw [jsPadStart] at hc
  rcases List.mem_append.mp hc with hc | hc
  · rw [List.eq_of_mem_replicate hc]; decide
  · exact h c hc

theorem bufferFromHexString_0x_ok (l : List Char)
    (h : ∀ c ∈ l, isHexDigitChar c = true) :
    ∃ bs, bufferFromHexString ('0' :: 'x' :: l) = .ok bs := by
  unfold bufferFromHexString
  rw [ensureHexString_0x_hexdigits l h]
  exact ⟨_, rfl⟩

/-- C1: for every legacy transaction signed by Transaction.sign on chain
chainId, the v field placed at position 6 of the emitted RLP field list
decodes (as a big-endian integer) to recId + 2·chainId + 35, where recId
is the secp256k1 recovery parameter of the signature; equivalently,
since Account.sign returns v_raw = recId + 27, the stored value is
v_raw + chainId·2 + 8.  (chainId < 2^32 records that getChainId decodes
the chain id as a uint32, keeping the JS float arithmetic exact.) -/
theorem tx_sign_eip155_v (keccakF : List Nat → List Nat)
    (rlpEnc : List (List Nat) → List Nat) (ecSign : List Nat → EcSignature)
    (env : SignEnv) (recId : ℕ) (fields fs : List (List Nat))
    (hrec : recId ≤ 1)
    (hchain : env.chainId < 2 ^ 32)
    (hbase : txBaseFields env = .ok fields)
    (hsig : (ecSign (keccakF (rlpEnc fields))).recoveryParam = some recId)
    (hok : Transaction.signFields keccakF rlpEnc ecSign env = .ok fs) :
    digitsValBE 256 (fs.getD 6 []) = recId + 2 * env.chainId + 35 := by
  unfold Transaction.signFields at hok
  rw [hbase] at hok
  have hok2 : (do
      let f6 ← bufferFromNumber
        ((((ecSign (keccakF (rlpEnc fields))).recoveryParam.getD 0 + 27)
          + env.chainId * 2 + 8 : ℕ) : ℚ)
      let f7 ← bufferFromHexString ('0' :: 'x' ::
        jsPadStart (natToHexChars (ecSign (keccakF (rlpEnc fields))).r) 64 '0')
      let f8 ← bufferFromHexString ('0' :: 'x' ::
        jsPadStart (natToHexChars (ecSign (keccakF (rlpEnc fields))).s) 64 '0')
      pure (fields.take 6 ++ [f6, f7, f8]) : Except JsErr (List (List Nat)))
        = .ok fs := by
    have hred : (Except.ok fields : Except JsErr (List (List Nat))) >>=
        (fun fields => (do
          let hash := keccakF (rlpEnc fields)
          let (v, r, s) := Account.sign (ecSign hash)
          let f6 ← bufferFromNumber ((v + env.chainId * 2 + 8 : ℕ) : ℚ)
          let f7 ← bufferFromHexString r
          let f8 ← bufferFromHexString s
          pure (fields.take 6 ++ [f6, f7, f8]) : Except JsErr (List (List Nat))))
        = .ok fs := hok
    simpa [Bind.bind, Except.bind, Account.sign] using hred
  rw [hsig] at hok2
  simp only [Option.getD_some] at hok2
  obtain ⟨b6, hb6, hb6v, _⟩ :=
    bufferFromNumber_natCast ((recId + 27) + env.chainId * 2 + 8)
  obtain ⟨a6, ha6, hok2⟩ := except_bind_ok' hok2
  obtain ⟨a7, ha7, hok2⟩ := except_bind_ok' hok2
  obtain ⟨a8, ha8, hok2⟩ := except_bind_ok' hok2
  simp only [pure, Except.pure, Except.ok.injEq] at hok2
  have ha6b : a6 = b6 := by
    rw [hb6] at ha6
    exact (Except.ok.injEq _ _).mp ha6.symm
  have hlen9 := txBaseFields_length env fields hbase
  have hlen6 : (fields.take 6).length = 6 := by
    rw [List.length_take]
    omega
  have hfs : fs = fields.take 6 ++ a6 :: [a7, a8] := hok2.symm
  have hgd : (fields.take 6 ++ a6 :: [a7, a8]).getD 6 [] = a6 := by
    have hg := list_getD_append_length (fields.take 6) a6 [a7, a8] []
    rwa [hlen6] at hg
  rw [hfs, hgd, ha6b, hb6v]
  omega

/-- A concrete stand-in for the external Keccak-256 primitive. -/
def txTestKeccak : List Nat → List Nat := fun _ => [7]

/-- A concrete stand-in for the external RLP encoder. -/
def txTestRlp : List (List Nat) → List Nat := fun _ => [1, 2]

/-- A concrete stand-in for the external secp256k1 signer. -/
def txTestEcSign : List Nat → EcSignature := fun _ => EcSignature.mk (some 1) 1 1

/-- A concrete resolved transaction environment: chain 1, nonce 0, gas
price 1 wei, gas limit 21000, no to/value/data. -/
def txTestEnv : SignEnv := SignEnv.mk 1 0 1 (some 21000) 0 none none none

/-- C1 witness: the EIP-155 v theorem instantiated on a concrete
transaction; with recId = 1 and chainId = 1 the v field holds 38. -/
theorem tx_sign_eip155_v_witness :
    digitsValBE 256
      (([[], [1], [82, 8], [], [], [], [38],
          List.replicate 31 0 ++ [1], List.replicate 31 0 ++ [1]]
        : List (List Nat)).getD 6 []) = 1 + 2 * 1 + 35 := by
  have h := tx_sign_eip155_v txTestKeccak txTestRlp txTestEcSign txTestEnv 1
    [[], [1], [82, 8], [], [], [], [1], [], []]
    [[], [1], [82, 8], [], [], [], [38],
      List.replicate 31 0 ++ [1], List.replicate 31 0 ++ [1]]
    (by decide) (by decide) (by rfl) (by rfl) (by rfl)
  simpa using h

/-- C7 (code bug): when the gas limit is unset, Transaction.sign applies
gas * 1.5 to the eth_estimateGas result without rounding; for the odd
estimate 21001 the product 31501.5 is not an integer and
bufferFromNumber throws TypeError "Given value is not an integer", so
sign fails instead of completing; for even estimates the 1.5 x buffer is
encoded (30000 -> 45000), and an estimate of exactly 21000 is used
as-is. -/
theorem tx_sign_gas_estimate_behaviour :
    Transaction.sign txTestKeccak txTestRlp txTestEcSign
        (SignEnv.mk 1 0 1 none 21001 none none none) =
      .error (.typeError "Given value is not an integer") ∧
    (Transaction.signFields txTestKeccak txTestRlp txTestEcSign
        (SignEnv.mk 1 0 1 none 30000 none none none)).map
        (fun fs => digitsValBE 256 (fs.getD 2 [])) = .ok 45000 ∧
    (Transaction.signFields txTestKeccak txTestRlp txTestEcSign
        (SignEnv.mk 1 0 1 none 21000 none none none)).map
        (fun fs => digitsValBE 256 (fs.getD 2 [])) = .ok 21000 := by
  have hg1 : txGasLimit (SignEnv.mk 1 0 1 none 21001 none none none)
      = (21001 : ℚ) * 1.5 := by
    rw [show txGasLimit (SignEnv.mk 1 0 1 none 21001 none none none)
        = (if (21001 : ℚ) = 21000 then (21001 : ℚ) else (21001 : ℚ) * 1.5)
      from rfl]
    rw [if_neg (by norm_num)]
  have hden : (txGasLimit (SignEnv.mk 1 0 1 none 21001 none none none)).den
      = 2 := by
    rw [hg1]
    norm_num
  have hbuf1 : bufferFromNumber
      (txGasLimit (SignEnv.mk 1 0 1 none 21001 none none none))
      = .error (.typeError "Given value is not an integer") := by
    unfold bufferFromNumber hexStringFromNumber ensurePositiveInteger
      jsIsInteger
    rw [hden]
    rfl
  have hb1 : txBaseFields (SignEnv.mk 1 0 1 none 21001 none none none)
      = .error (.typeError "Given value is not an integer") := by
    unfold txBaseFields
    simp only [hbuf1]
    rfl
  have hsf1 : Transaction.signFields txTestKeccak txTestRlp txTestEcSign
      (SignEnv.mk 1 0 1 none 21001 none none none)
      = .error (.typeError "Given value is not an integer") := by
    unfold Transaction.signFields
    simp only [hb1]
    rfl
  have hg2 : txGasLimit (SignEnv.mk 1 0 1 none 30000 none none none)
      = ((45000 : ℕ) : ℚ) := by
    rw [show txGasLimit (SignEnv.mk 1 0 1 none 30000 none none none)
        = (if (30000 : ℚ) = 21000 then (30000 : ℚ) else (30000 : ℚ) * 1.5)
      from rfl]
    rw [if_neg (by norm_num)]
    norm_num
  have hb2 : txBaseFields (SignEnv.mk 1 0 1 none 30000 none none none)
      = .ok [[], [1], [175, 200], [], [], [], [1], [], []] := by
    unfold txBaseFields
    simp only [hg2]
    rfl
  have hsf2 : Transaction.signFields txTestKeccak txTestRlp txTestEcSign
      (SignEnv.mk 1 0 1 none 30000 none none none)
      = .ok [[], [1], [175, 200], [], [], [], [38],
          List.replicate 31 0 ++ [1], List.replicate 31 0 ++ [1]] := by
    unfold Transaction.signFields
    simp only [hb2]
    rfl
  refine ⟨?_, ?_, ?_⟩
  · unfold Transaction.sign
    rw [hsf1]
    rfl
  · rw [hsf2]
    rfl
  · rfl

/-- C2 (code bug): the txHash getter of TransactionSubmission returns
this.txHash, which re-enters the same getter, so no call-stack depth
makes it yield the stored hash; meanwhile submit() does store the
Keccak-256 digest of the RLP-encoded signed-transaction bytes (here the
RLP bytes [1, 2], whose digest the stand-in Keccak maps to [7]) in the
private field. -/
theorem txSubmission_getter_self_recursion :
    (∀ (depth : Nat) (ts : TransactionSubmission),
        TransactionSubmission.txHashGetter depth ts = none) ∧
    Transaction.submit txTestKeccak txTestRlp txTestEcSign txTestEnv .success =
      .ok ⟨hexStringFromBuffer (txTestKeccak [1, 2]) true⟩ := by
  constructor
  · intro depth ts
    induction depth with
    | zero => rfl
    | succ d ih => exact ih
  · rfl

/-- C3: provided signing succeeds, submit() succeeds and returns the
same txHash exactly when the eth_sendRawTransaction call either succeeds
or fails with a JSONRPCError whose message matches /known|imported/i;
every other error propagates out of submit(). -/
theorem tx_submit_error_handling (keccakF : List Nat → List Nat)
    (rlpEnc : List (List Nat) → List Nat) (ecSign : List Nat → EcSignature)
    (env : SignEnv) (stx : List Char)
    (hrlp : ∀ l : List (List Nat), ∀ x ∈ rlpEnc l, x < 256)
    (hsign : Transaction.sign keccakF rlpEnc ecSign env = .ok stx) :
    ∃ txh : List Char,
      Transaction.submit keccakF rlpEnc ecSign env .success = .ok ⟨txh⟩ ∧
      (∀ msg, matchesKnownImported msg = true →
        Transaction.submit keccakF rlpEnc ecSign env (.rpcFailure msg) =
          .ok ⟨txh⟩) ∧
      (∀ msg, matchesKnownImported msg = false →
        Transaction.submit keccakF rlpEnc ecSign env (.rpcFailure msg) =
          .error (.jsonRpcError msg)) ∧
      (∀ e, Transaction.submit keccakF rlpEnc ecSign env (.otherFailure e) =
        .error e) := by
  unfold Transaction.sign at hsign
  obtain ⟨fs, hfs, hstx⟩ := except_map_ok hsign
  subst hstx
  have hsign2 : Transaction.sign keccakF rlpEnc ecSign env =
      .ok (hexStringFromBuffer (rlpEnc fs) true) := by
    unfold Transaction.sign
    rw [hfs]
    rfl
  have hhash : keccak256OfHexString keccakF
      (hexStringFromBuffer (rlpEnc fs) true) = .ok (keccakF (rlpEnc fs)) := by
    unfold keccak256OfHexString
    rw [bufferFromHexString_hexStringFromBuffer _ (hrlp fs)]
    rfl
  refine ⟨hexStringFromBuffer (keccakF (rlpEnc fs)) true, ?_, ?_, ?_, ?_⟩
  · simp [Transaction.submit, hsign2, hhash, Bind.bind, Except.bind, pure,
      Except.pure]
  · intro msg hm
    simp [Transaction.submit, hsign2, hhash, Bind.bind, Except.bind, hm, pure,
      Except.pure]
  · intro msg hm
    simp [Transaction.submit, hsign2, hhash, Bind.bind, Except.bind, hm,
      throw, throwThe, MonadExceptOf.throw]
  · intro e
    simp [Transaction.submit, hsign2, hhash, Bind.bind, Except.bind,
      throw, throwThe, MonadExceptOf.throw]

/-- C3 witness: the submit error-handling theorem instantiated on a
concrete transaction whose signing succeeds. -/
theorem tx_submit_error_handling_witness :
    ∃ txh : List Char,
      Transaction.submit txTestKeccak txTestRlp txTestEcSign txTestEnv
        .success = .ok ⟨txh⟩ ∧
      (∀ msg, matchesKnownImported msg = true →
        Transaction.submit txTestKeccak txTestRlp txTestEcSign txTestEnv
          (.rpcFailure msg) = .ok ⟨txh⟩) ∧
      (∀ msg, matchesKnownImported msg = false →
        Transaction.submit txTestKeccak txTestRlp txTestEcSign txTestEnv
          (.rpcFailure msg) = .error (.jsonRpcError msg)) ∧
      (∀ e, Transaction.submit txTestKeccak txTestRlp txTestEcSign txTestEnv
        (.otherFailure e) = .error e) :=
  tx_submit_error_handling txTestKeccak txTestRlp txTestEcSign txTestEnv
    ['0', 'x', '0', '1', '0', '2']
    (fun l x hx => by simp [txTestRlp] at hx; omega)
    (by rfl)

/-- The mutable per-instance state of a USDC object read and written by
getContractAddress (part_006): the __contractAddress string inherited
from ERC20 (initialized to "" by the USDC constructor), the cached
__chainId (undefined until first set), and the
_contractAddressOverridden flag. -/
structure UsdcState where
  contractAddress : List Char
  chainId : Option Nat
  overridden : Bool
deriving DecidableEq, Repr

/-- The state of a freshly constructed USDC instance (part_006
constructor: `super(account, rpc, "", 6)`). -/
def usdcInitialState : UsdcState := UsdcState.mk [] none false

/-- The switch over chainId of USDC.getContractAddress (part_006 lines
74-95): the six canonical deployment addresses, none otherwise. -/
def usdcChainAddress (chainId : Nat) : Option (List Char) :=
  match chainId with
  | 1 => some "0xA0b86991c6218b36c1d19D4a2e9Eb0cE3606eB48".data
  | 3 => some "0x07865c6E87B9F70255377e024ace6630C1Eaa37F".data
  | 4 => some "0x705de9dc3ad85e072ab34cf6850e6b2bd317ccc1".data
  | 5 => some "0x2f3a40a3db8a7e3d09b0adfefbce4f6f81927557".data
  | 137 => some "0x2791Bca1f2de4661ED88A30C99A7a9449Aa84174".data
  | 80001 => some "0xe6b8a5CF854791412c1f6EFC7CAf629f5Df1c747".data
  | _ => none

/-- USDC.getContractAddress (part_006 lines 64-98), with the chainId
returned by this call's rpc.getChainId() passed explicitly: returns the
override when set; otherwise, when __contractAddress is falsy (empty) or
the chain id differs from the cached one, assigns __chainId := chainId
first and then resolves the switch, throwing on an unknown chain with
__chainId already updated; otherwise returns the cached address.  The
result pairs the returned-or-thrown value with the instance state after
the call. -/
def USDC.getContractAddress (st : UsdcState) (chainId : Nat) :
    Except JsErr (List Char) × UsdcState :=
  if st.overridden then
    (.ok st.contractAddress, st)
  else if st.contractAddress.isEmpty || (some chainId != st.chainId) then
    match usdcChainAddress chainId with
    | some addr => (.ok addr, UsdcState.mk addr (some chainId) st.overridden)
    | none =>
      (.error (.jsError
          ("Unknown chain ID: " ++ String.mk (natToDecChars chainId))),
       UsdcState.mk st.contractAddress (some chainId) st.overridden)
  else
    (.ok st.contractAddress, st)

/-- C8 (code bug): getContractAddress honors the override, maps each of
the six known chains (in particular 137) to its canonical address, and
fails with "Unknown chain ID" on a fresh instance for chain 999 — but
the cache is not correctly invalidated after a failed lookup: a call
seeing chain 1 caches the mainnet address, a second call seeing chain
999 throws yet still records __chainId = 999, so a third call seeing
chain 999 finds both the truthy cached address and a matching cached
chain id and returns the mainnet address instead of failing. -/
theorem usdc_getContractAddress_stale_cache :
    (USDC.getContractAddress (UsdcState.mk "0xCustom".data none true) 999).1
      = .ok "0xCustom".data ∧
    ((USDC.getContractAddress usdcInitialState 1).1
      = .ok "0xA0b86991c6218b36c1d19D4a2e9Eb0cE3606eB48".data ∧
     (USDC.getContractAddress usdcInitialState 3).1
      = .ok "0x07865c6E87B9F70255377e024ace6630C1Eaa37F".data ∧
     (USDC.getContractAddress usdcInitialState 4).1
      = .ok "0x705de9dc3ad85e072ab34cf6850e6b2bd317ccc1".data ∧
     (USDC.getContractAddress usdcInitialState 5).1
      = .ok "0x2f3a40a3db8a7e3d09b0adfefbce4f6f81927557".data ∧
     (USDC.getContractAddress usdcInitialState 137).1
      = .ok "0x2791Bca1f2de4661ED88A30C99A7a9449Aa84174".data ∧
     (USDC.getContractAddress usdcInitialState 80001).1
      = .ok "0xe6b8a5CF854791412c1f6EFC7CAf629f5Df1c747".data) ∧
    (USDC.getContractAddress usdcInitialState 999).1
      = .error (.jsError "Unknown chain ID: 999") ∧
    USDC.getContractAddress usdcInitialState 1
      = (.ok "0xA0b86991c6218b36c1d19D4a2e9Eb0cE3606eB48".data,
         UsdcState.mk "0xA0b86991c6218b36c1d19D4a2e9Eb0cE3606eB48".data
           (some 1) false) ∧
    USDC.getContractAddress
        (UsdcState.mk "0xA0b86991c6218b36c1d19D4a2e9Eb0cE3606eB48".data
          (some 1) false) 999
      = (.error (.jsError "Unknown chain ID: 999"),
         UsdcState.mk "0xA0b86991c6218b36c1d19D4a2e9Eb0cE3606eB48".data
           (some 999) false) ∧
    (USDC.getContractAddress
        (UsdcState.mk "0xA0b86991c6218b36c1d19D4a2e9Eb0cE3606eB48".data
          (some 999) false) 999).1
      = .ok "0xA0b86991c6218b36c1d19D4a2e9Eb0cE3606eB48".data := by
  refine ⟨rfl, ⟨rfl, rfl, rfl, rfl, rfl, rfl⟩, rfl, rfl, rfl, rfl⟩

/-- The value/gas fields of the Transaction builder (part_015): _value
(a BN of wei), _gasLimit (a JS number) and _gasPrice (a BN of wei).
The remaining fields (_to, _data, _nonce, the promises) are not
constrained by the builder's range checks and do not interact with
these. -/
structure TxState where
  value : Option ℤ
  gasLimit : Option ℚ
  gasPrice : Option ℤ
deriving DecidableEq, Repr

/-- The TransactionOptions fields feeding the checks of the Transaction
constructor (part_015 lines 38-78): strings are supplied or absent,
numbers are supplied or absent. -/
structure TxOptions where
  weiValue : Option (List Char)
  ethValue : Option (List Char)
  gasLimit : Option ℚ
  gasPriceWei : Option ℚ
  gasPriceGwei : Option ℚ

/-- `new BN(s)` (base 10) on the sign-and-digit strings bn.js accepts;
the empty string parses to 0. -/
def jsBN10 (s : List Char) : ℤ :=
  if jsStartsWith '-' s then -(decCharsVal (s.drop 1) : ℤ)
  else (decCharsVal s : ℤ)

/-- Transaction.setWeiValue (part_015 lines 156-170): null clears the
value; otherwise the wei string is parsed with `new BN`, rejected when
negative or at least 10^6 ether, and stored. -/
def Transaction.setWeiValue (st : TxState) (weiValue : Option (List Char)) :
    Except JsErr TxState :=
  match weiValue with
  | none => .ok (TxState.mk none st.gasLimit st.gasPrice)
  | some s =>
    if jsBN10 s < 0 then .error (.jsError "ETH value must be positive")
    else if 1000000 * ONE_ETHER ≤ jsBN10 s then
      .error (.jsError "ETH value must be less than 1000000")
    else .ok (TxState.mk (some (jsBN10 s)) st.gasLimit st.gasPrice)

/-- Transaction.setETHValue (part_015 lines 178-189): null clears the
value; otherwise the decimal string is parsed with bnFromDecimalString
at 18 places (which rejects negatives), rejected when at least 10^6
ether, and stored. -/
def Transaction.setETHValue (st : TxState) (ethValue : Option (List Char)) :
    Except JsErr TxState :=
  match ethValue with
  | none => .ok (TxState.mk none st.gasLimit st.gasPrice)
  | some s =>
    match bnFromDecimalString s 18 with
    | .error e => .error e
    | .ok v =>
      if 1000000 * ONE_ETHER ≤ v then
        .error (.jsError "ETH value must be less than 1000000")
      else .ok (TxState.mk (some v) st.gasLimit st.gasPrice)

/-- Transaction.setGasLimit (part_015 lines 196-214): null clears the
gas limit; otherwise the number must be an integer in
[21000, 20000000]. -/
def Transaction.setGasLimit (st : TxState) (gasLimit : Option ℚ) :
    Except JsErr TxState :=
  match gasLimit with
  | none => .ok (TxState.mk st.value none st.gasPrice)
  | some g =>
    if !jsIsInteger g then .error (.jsError "Gas limit must be an integer")
    else if g < 21000 then
      .error (.jsError "Gas limit must be at least 21000")
    else if 20000000 < g then
      .error (.jsError "Gas limit must not exceed 20000000")
    else .ok (TxState.mk st.value (some g) st.gasPrice)

/-- Transaction.setGasPriceWei (part_015 lines 222-238): null clears the
gas price; otherwise the number must be an integer in [0, 1000e9], and
`new BN(gasPriceWei)` (the numerator of an integral rational) is
stored. -/
def Transaction.setGasPriceWei (st : TxState) (gasPriceWei : Option ℚ) :
    Except JsErr TxState :=
  match gasPriceWei with
  | none => .ok (TxState.mk st.value st.gasLimit none)
  | some p =>
    if !jsIsInteger p then
      .error (.jsError "Gas price in wei must be an integer")
    else if p < 0 then .error (.jsError "Gas price must be at least 0")
    else if 1000000000000 < p then
      .error (.jsError "Gas price must not exceed 1000 Gwei")
    else .ok (TxState.mk st.value st.gasLimit (some p.num))

/-- Transaction.setGasPriceGwei (part_015 lines 246-262): null clears
the gas price; otherwise the number must be in [0, 1000] and
`new BN(Math.floor(gasPriceGwei * 1e9))` is stored. -/
def Transaction.setGasPriceGwei (st : TxState) (gasPriceGwei : Option ℚ) :
    Except JsErr TxState :=
  match gasPriceGwei with
  | none => .ok (TxState.mk st.value st.gasLimit none)
  | some p =>
    if p < 0 then .error (.jsError "Gas price must be at least 0")
    else if 1000 < p then
      .error (.jsError "Gas price must not exceed 1000 Gwei")
    else .ok (TxState.mk st.value st.gasLimit (some ⌊p * 1000000000⌋))

/-- The `typeof options.x === "string" / "number"` guards of the
constructor: a supplied option is passed to its setter, an absent one
leaves the state alone. -/
def applyIfSupplied {α : Type}
    (setter : TxState → Option α → Except JsErr TxState) (o : Option α)
    (st : TxState) : Except JsErr TxState :=
  match o with
  | some a => setter st (some a)
  | none => .ok st

/-- The Transaction constructor (part_015 lines 38-78) restricted to the
value/gas options: the weiValue/ethValue pair is rejected when both are
truthy (non-empty) strings, the gasPriceWei/gasPriceGwei pair when both
are supplied numbers; each supplied option is run through its validated
setter in source order, starting from the all-unset state. -/
def Transaction.construct (opts : TxOptions) : Except JsErr TxState :=
  if (opts.weiValue.getD []).isEmpty = false ∧
      (opts.ethValue.getD []).isEmpty = false then
    .error (.jsError "Cannot specify both weiValue and ethValue")
  else
    applyIfSupplied Transaction.setWeiValue opts.weiValue
        (TxState.mk none none none) >>= fun st1 =>
    applyIfSupplied Transaction.setETHValue opts.ethValue st1 >>= fun st2 =>
    applyIfSupplied Transaction.setGasLimit opts.gasLimit st2 >>= fun st3 =>
    if opts.gasPriceWei.isSome ∧ opts.gasPriceGwei.isSome then
      .error (.jsError "Cannot specify both gasPriceWei and gasPriceGwei")
    else
      applyIfSupplied Transaction.setGasPriceWei opts.gasPriceWei st3 >>=
        fun st4 =>
      applyIfSupplied Transaction.setGasPriceGwei opts.gasPriceGwei st4

/-- One call to a value/gas setter of the Transaction builder. -/
inductive TxOp where
  | opSetWeiValue (weiValue : Option (List Char))
  | opSetETHValue (ethValue : Option (List Char))
  | opSetGasLimit (gasLimit : Option ℚ)
  | opSetGasPriceWei (gasPriceWei : Option ℚ)
  | opSetGasPriceGwei (gasPriceGwei : Option ℚ)

/-- The state transition of one setter call. -/
def TxOp.apply (st : TxState) : TxOp → Except JsErr TxState
  | .opSetWeiValue v => Transaction.setWeiValue st v
  | .opSetETHValue v => Transaction.setETHValue st v
  | .opSetGasLimit g => Transaction.setGasLimit st g
  | .opSetGasPriceWei p => Transaction.setGasPriceWei st p
  | .opSetGasPriceGwei p => Transaction.setGasPriceGwei st p

/-- The builder states reachable through the constructor and any
sequence of completed setter calls (a throwing setter leaves the state
unchanged, so failed calls add no new states). -/
inductive TxReachable : TxState → Prop where
  | constructed (opts : TxOptions) (st : TxState) :
      Transaction.construct opts = .ok st → TxReachable st
  | step (st st' : TxState) (op : TxOp) :
      TxReachable st → TxOp.apply st op = .ok st' → TxReachable st'

/-- The range invariant of the builder state: the stored value is in
[0, 10^6 ether), the stored gas limit is an integer in
[21000, 20000000], the stored gas price is in [0, 10^12] wei. -/
def TxInvariant (st : TxState) : Prop :=
  (∀ v ∈ st.value, 0 ≤ v ∧ v < 1000000 * ONE_ETHER) ∧
  (∀ g ∈ st.gasLimit, jsIsInteger g = true ∧ 21000 ≤ g ∧ g ≤ 20000000) ∧
  (∀ p ∈ st.gasPrice, 0 ≤ p ∧ p ≤ 1000000000000)

theorem bnFromDecimalString_nonneg (s : List Char) (p : Nat) (v : ℤ)
    (h : bnFromDecimalString s p = .ok v) : 0 ≤ v := by
  unfold bnFromDecimalString at h
  split at h
  · exact absurd h (by simp)
  · rcases hsp : jsSplitDot _ with ⟨w, f⟩
    rw [hsp] at h
    simp only [Except.ok.injEq] at h
    rw [← h]
    exact Int.ofNat_nonneg _

theorem setWeiValue_inv (st : TxState) (v : Option (List Char))
    (st' : TxState) (h : Transaction.setWeiValue st v = .ok st')
    (hinv : TxInvariant st) : TxInvariant st' := by
  obtain ⟨h1, h2, h3⟩ := hinv
  cases v with
  | none =>
    simp only [Transaction.setWeiValue, Except.ok.injEq] at h
    subst h
    exact ⟨by simp, fun g hg => h2 g hg, fun p hp => h3 p hp⟩
  | some s =>
    simp only [Transaction.setWeiValue] at h
    split at h
    · exact absurd h (by simp)
    · split at h
      · exact absurd h (by simp)
      · rename_i hneg hbig
        simp only [Except.ok.injEq] at h
        subst h
        refine ⟨?_, fun g hg => h2 g hg, fun p hp => h3 p hp⟩
        intro x hx
        simp only [Option.mem_def, Option.some.injEq] at hx
        subst hx
        exact ⟨le_of_not_lt hneg, lt_of_not_le hbig⟩

theorem setETHValue_inv (st : TxState) (v : Option (List Char))
    (st' : TxState) (h : Transaction.setETHValue st v = .ok st')
    (hinv : TxInvariant st) : TxInvariant st' := by
  obtain ⟨h1, h2, h3⟩ := hinv
  cases v with
  | none =>
    simp only [Transaction.setETHValue, Except.ok.injEq] at h
    subst h
    exact ⟨by simp, fun g hg => h2 g hg, fun p hp => h3 p hp⟩
  | some s =>
    simp only [Transaction.setETHValue] at h
    split at h
    · exact absurd h (by simp)
    · rename_i val hval
      split at h
      · exact absurd h (by simp)
      · rename_i hbig
        simp only [Except.ok.injEq] at h
        subst h
        refine ⟨?_, fun g hg => h2 g hg, fun p hp => h3 p hp⟩
        intro x hx
        simp only [Option.mem_def, Option.some.injEq] at hx
        subst hx
        exact ⟨bnFromDecimalString_nonneg s 18 val hval, lt_of_not_le hbig⟩

theorem setGasLimit_inv (st : TxState) (v : Option ℚ) (st' : TxState)
    (h : Transaction.setGasLimit st v = .ok st') (hinv : TxInvariant st) :
    TxInvariant st' := by
  obtain ⟨h1, h2, h3⟩ := hinv
  cases v with
  | none =>
    simp only [Transaction.setGasLimit, Except.ok.injEq] at h
    subst h
    exact ⟨fun x hx => h1 x hx, by simp, fun p hp => h3 p hp⟩
  | some g =>
    simp only [Transaction.setGasLimit] at h
    split at h
    · exact absurd h (by simp)
    · split at h
      · exact absurd h (by simp)
      · split at h
        · exact absurd h (by simp)
        · rename_i hint hlo hhi
          simp only [Except.ok.injEq] at h
          subst h
          refine ⟨fun x hx => h1 x hx, ?_, fun p hp => h3 p hp⟩
          intro x hx
          simp only [Option.mem_def, Option.some.injEq] at hx
          subst hx
          refine ⟨?_, le_of_not_lt hlo, le_of_not_lt hhi⟩
          simpa using hint

theorem setGasPriceWei_inv (st : TxState) (v : Option ℚ) (st' : TxState)
    (h : Transaction.setGasPriceWei st v = .ok st') (hinv : TxInvariant st) :
    TxInvariant st' := by
  obtain ⟨h1, h2, h3⟩ := hinv
  cases v with
  | none =>
    simp only [Transaction.setGasPriceWei, Except.ok.injEq] at h
    subst h
    exact ⟨fun x hx => h1 x hx, fun g hg => h2 g hg, by simp⟩
  | some p =>
    simp only [Transaction.setGasPriceWei] at h
    split at h
    · exact absurd h (by simp)
    · split at h
      · exact absurd h (by simp)
      · split at h
        · exact absurd h (by simp)
        · rename_i hint hneg hhi
          simp only [Except.ok.injEq] at h
          subst h
          refine ⟨fun x hx => h1 x hx, fun g hg => h2 g hg, ?_⟩
          intro x hx
          simp only [Option.mem_def, Option.some.injEq] at hx
          subst hx
          have hden : p.den = 1 := by
            have := hint
            simp [jsIsInteger] at this
            exact this
          have hcast : (p.num : ℚ) = p := by
            rw [← Rat.den_eq_one_iff]
            exact hden
          constructor
          · rw [Rat.num_nonneg]
            exact le_of_not_lt hneg
          · have hple : p ≤ 1000000000000 := le_of_not_lt hhi
            rw [← hcast] at hple
            exact_mod_cast hple

theorem setGasPriceGwei_inv (st : TxState) (v : Option ℚ) (st' : TxState)
    (h : Transaction.setGasPriceGwei st v = .ok st') (hinv : TxInvariant st) :
    TxInvariant st' := by
  obtain ⟨h1, h2, h3⟩ := hinv
  cases v with
  | none =>
    simp only [Transaction.setGasPriceGwei, Except.ok.injEq] at h
    subst h
    exact ⟨fun x hx => h1 x hx, fun g hg => h2 g hg, by simp⟩
  | some p =>
    simp only [Transaction.setGasPriceGwei] at h
    split at h
    · exact absurd h (by simp)
    · split at h
      · exact absurd h (by simp)
      · rename_i hneg hhi
        simp only [Except.ok.injEq] at h
        subst h
        refine ⟨fun x hx => h1 x hx, fun g hg => h2 g hg, ?_⟩
        intro x hx
        simp only [Option.mem_def, Option.some.injEq] at hx
        subst hx
        have hp0 : (0 : ℚ) ≤ p := le_of_not_lt hneg
        have hp1 : p ≤ 1000 := le_of_not_lt hhi
        constructor
        · rw [Int.floor_nonneg]
          positivity
        · have hle : p * 1000000000 ≤ 1000000000000 := by linarith
          have hfl : (⌊p * 1000000000⌋ : ℚ) ≤ p * 1000000000 :=
            Int.floor_le _
          have : (⌊p * 1000000000⌋ : ℚ) ≤ 1000000000000 := le_trans hfl hle
          exact_mod_cast this

theorem applyIfSupplied_inv {α : Type}
    (setter : TxState → Option α → Except JsErr TxState)
    (hset : ∀ st o st', setter st o = .ok st' → TxInvariant st →
      TxInvariant st')
    (o : Option α) (st st' : TxState)
    (h : applyIfSupplied setter o st = .ok st') (hinv : TxInvariant st) :
    TxInvariant st' := by
  cases o with
  | none =>
    simp only [applyIfSupplied, Except.ok.injEq] at h
    subst h
    exact hinv
  | some a => exact hset st (some a) st' h hinv

/-- C9 (as amended): every builder state reachable through the
constructor and the validated setters keeps the stored value in
[0, 10^6 ether), the stored gas limit an integer in [21000, 20000000]
and the stored gas price in [0, 10^12] wei; a successful construction
supplied at most one of the gasPriceWei/gasPriceGwei numbers, and its
weiValue/ethValue strings were not both truthy (non-empty) — supplying
both is rejected only up to string truthiness, not up to being
supplied. -/
theorem tx_builder_invariants :
    (∀ st, TxReachable st → TxInvariant st) ∧
    (∀ opts st, Transaction.construct opts = .ok st →
      ¬(opts.gasPriceWei.isSome = true ∧ opts.gasPriceGwei.isSome = true)) ∧
    (∀ opts st, Transaction.construct opts = .ok st →
      ¬((opts.weiValue.getD []).isEmpty = false ∧
        (opts.ethValue.getD []).isEmpty = false)) := by
  refine ⟨?_, ?_, ?_⟩
  · intro st h
    induction h with
    | constructed opts st hok =>
      have h0 : TxInvariant (TxState.mk none none none) :=
        ⟨by simp, by simp, by simp⟩
      unfold Transaction.construct at hok
      split at hok
      · exact absurd hok (by simp)
      · obtain ⟨st1, hst1, hok⟩ := except_bind_ok' hok
        obtain ⟨st2, hst2, hok⟩ := except_bind_ok' hok
        obtain ⟨st3, hst3, hok⟩ := except_bind_ok' hok
        split at hok
        · exact absurd hok (by simp)
        · obtain ⟨st4, hst4, hok⟩ := except_bind_ok' hok
          have i1 := applyIfSupplied_inv Transaction.setWeiValue
            setWeiValue_inv opts.weiValue _ st1 hst1 h0
          have i2 := applyIfSupplied_inv Transaction.setETHValue
            setETHValue_inv opts.ethValue st1 st2 hst2 i1
          have i3 := applyIfSupplied_inv Transaction.setGasLimit
            setGasLimit_inv opts.gasLimit st2 st3 hst3 i2
          have i4 := applyIfSupplied_inv Transaction.setGasPriceWei
            setGasPriceWei_inv opts.gasPriceWei st3 st4 hst4 i3
          exact applyIfSupplied_inv Transaction.setGasPriceGwei
            setGasPriceGwei_inv opts.gasPriceGwei st4 st hok i4
    | step st st' op hre hok ih =>
      cases op with
      | opSetWeiValue v => exact setWeiValue_inv st v st' hok ih
      | opSetETHValue v => exact setETHValue_inv st v st' hok ih
      | opSetGasLimit v => exact setGasLimit_inv st v st' hok ih
      | opSetGasPriceWei v => exact setGasPriceWei_inv st v st' hok ih
      | opSetGasPriceGwei v => exact setGasPriceGwei_inv st v st' hok ih
  · intro opts st hok hboth
    unfold Transaction.construct at hok
    rw [if_neg (fun hc => by
      rw [if_pos hc] at hok
      exact absurd hok (by simp))] at hok
    obtain ⟨st1, hst1, hok⟩ := except_bind_ok' hok
    obtain ⟨st2, hst2, hok⟩ := except_bind_ok' hok
    obtain ⟨st3, hst3, hok⟩ := except_bind_ok' hok
    rw [if_pos hboth] at hok
    exact absurd hok (by simp)
  · intro opts st hok hboth
    unfold Transaction.construct at hok
    rw [if_pos hboth] at hok
    exact absurd hok (by simp)

/-- C9 counterexample to the original claim: supplying both
weiValue = "" and ethValue = "1" is accepted — the mutual-exclusion
check tests string truthiness, the subsequent typeof checks test
suppliedness, and the empty wei string parses as new BN("") = 0 — so
both setters run and the construction succeeds with the eth value (the
later assignment) stored. -/
theorem tx_construct_both_values_accepted :
    Transaction.construct
        (TxOptions.mk (some []) (some ['1']) none none none)
      = .ok (TxState.mk (some 1000000000000000000) none none) ∧
    (some ([] : List Char)).isSome = true ∧
    (some ['1']).isSome = true := by
  refine ⟨rfl, rfl, rfl⟩

/-- C9 witness: the invariant theorem applied to the concrete state
reached by constructing with ethValue = "1". -/
theorem tx_builder_invariants_witness :
    TxInvariant (TxState.mk (some 1000000000000000000) none none) := by
  have hre : TxReachable (TxState.mk (some 1000000000000000000) none none) :=
    TxReachable.constructed (TxOptions.mk none (some ['1']) none none none)
      (TxState.mk (some 1000000000000000000) none none) (by rfl)
  exact tx_builder_invariants.1 _ hre

/-- `data.slice(from, to)` of a Buffer: clamped, non-negative indices
(the only form the ABI codec uses). -/
def listSlice {α : Type} (data : List α) (i j : Nat) : List α :=
  (data.drop i).take (j - i)

/-- `num.toArrayLike(Buffer, "be", w)`: the w-byte big-endian encoding
of a non-negative integer (the codec always checks the width first). -/
def natToBytesBE : Nat → Nat → List Nat
  | 0, _ => []
  | w + 1, n => natToBytesBE w (n / 256) ++ [n % 256]

/-- `new BN(data.slice(offset, offset + 32))` of decodeSingle: the
big-endian value of the 32-byte word at `offset`. -/
def readWord (data : List Nat) (off : Nat) : Nat :=
  digitsValBE 256 (listSlice data off (off + 32))

/-- `BN.prototype.bitLength()`: the bit length of the magnitude (bn.js
ignores the sign). -/
def bnBitLength (z : ℤ) : Nat :=
  (natDigitsBE 2 z.natAbs).length

/-- `BN.prototype.toNumber()`: bn.js asserts the value fits in 53
bits. -/
def jsToNumberChk (n : Nat) : Except JsErr Nat :=
  if 2 ^ 53 ≤ n then
    .error (.jsError "Number can only safely store up to 53 bits")
  else .ok n

/-- `num.toTwos(256)`: the 256-bit two's complement image of an integer
of at most 256 bits, as a non-negative integer. -/
def toTwos256 (z : ℤ) : Nat :=
  (z % 2 ^ 256).toNat

/-- `num.fromTwos(256)`: the signed value of a 256-bit two's complement
word. -/
def fromTwos256 (n : Nat) : ℤ :=
  if 2 ^ 255 ≤ n then (n : ℤ) - 2 ^ 256 else (n : ℤ)

/-- setLengthRight (vendor/ethereumjs-abi.js): right-pad with zero bytes
to `len`, truncating from the right when longer. -/
def setLengthRight (b : List Nat) (len : Nat) : List Nat :=
  if len ≤ b.length then b.take len else b ++ List.replicate (len - b.length) 0

/-- The ABI type descriptors the vendored codec supports (after
elementaryName canonicalisation), fixed-point types aside: `arrayT t
none` is the dynamic array t[], `arrayT t (some n)` is t[n]. -/
inductive AbiType where
  | addressT
  | boolT
  | stringT
  | bytesT
  | bytesNT (n : Nat)
  | uintT (n : Nat)
  | intT (n : Nat)
  | arrayT (elem : AbiType) (size : Option Nat)
deriving DecidableEq, Repr

/-- The JavaScript values the codec exchanges: BN integers, booleans,
strings, Buffers, and arrays of values. -/
inductive AbiValue where
  | num (z : ℤ)
  | boolV (b : Bool)
  | strV (s : List Char)
  | bufV (b : List Nat)
  | arrV (vs : List AbiValue)

/-- isDynamic (vendor/ethereumjs-abi.js): string, bytes, or a
dynamic-size array. -/
def isDynamicT : AbiType → Bool
  | .stringT => true
  | .bytesT => true
  | .arrayT _ none => true
  | _ => false

/-- The head-slot width rawEncode reserves per type: 32·size for a
fixed-size array, 32 otherwise. -/
def abiStaticHeadLen : AbiType → Nat
  | .arrayT _ (some n) => 32 * n
  | _ => 32

/-- The initial headLength of rawEncode: the sum of the head-slot
widths. -/
def abiHeadLength (ts : List AbiType) : Nat :=
  (ts.map abiStaticHeadLen).sum

/-- parseType's memoryUsage: 32 for leaves and dynamic arrays, the
element usage times the size for fixed-size arrays. -/
def abiMemoryUsage : AbiType → Nat
  | .arrayT _ none => 32
  | .arrayT elem (some n) => abiMemoryUsage elem * n
  | _ => 32

/-- The width validation parseType performs while parsing a type
string (recursing into array element types). -/
def validateAbiType : AbiType → Except JsErr Unit
  | .bytesNT n =>
    if n < 1 || 32 < n then .error (.jsError "Invalid bytes<N> width")
    else .ok ()
  | .uintT n =>
    if n % 8 != 0 || n < 8 || 256 < n then
      .error (.jsError "Invalid int/uint<N> width")
    else .ok ()
  | .intT n =>
    if n % 8 != 0 || n < 8 || 256 < n then
      .error (.jsError "Invalid int/uint<N> width")
    else .ok ()
  | .arrayT elem _ => validateAbiType elem
  | _ => .ok ()

/-- The uint<N> branch of encodeSingle: width check, bitLength check,
negativity check, then the 32-byte big-endian word. -/
def uintEncodeChecked (n : Nat) (z : ℤ) : Except JsErr (List Nat) :=
  if n % 8 != 0 || n < 8 || 256 < n then
    .error (.jsError "Invalid uint<N> width")
  else if n < bnBitLength z then
    .error (.jsError "Supplied uint exceeds width")
  else if z < 0 then .error (.jsError "Supplied uint is negative")
  else .ok (natToBytesBE 32 z.toNat)

/-- The int<N> branch of encodeSingle: width check, bitLength check,
then the 32-byte big-endian word of the 256-bit two's complement. -/
def intEncodeChecked (n : Nat) (z : ℤ) : Except JsErr (List Nat) :=
  if n % 8 != 0 || n < 8 || 256 < n then
    .error (.jsError "Invalid int<N> width")
  else if n < bnBitLength z then
    .error (.jsError "Supplied int exceeds width")
  else .ok (natToBytesBE 32 (toTwos256 z))

/-- The bytes branch of encodeSingle: length word, payload, and zero
padding to the next 32-byte boundary. -/
def bytesEncode (b : List Nat) : List Nat :=
  natToBytesBE 32 b.length ++ b ++
    (if b.length % 32 == 0 then [] else List.replicate (32 - b.length % 32) 0)

/-- Sequencing of encodeSingle over the elements of an array value (the
`for (i in arg) ret.push(encodeSingle(type, arg[i]))` loop). -/
def encodeAbiList (f : AbiValue → Except JsErr (List Nat)) :
    List AbiValue → Except JsErr (List (List Nat))
  | [] => .ok []
  | v :: vs => do
    let e ← f v
    let es ← encodeAbiList f vs
    .ok (e :: es)

/-- encodeSingle (vendor/ethereumjs-abi.js lines 167-268) on the
supported types, with the delegating leaves (address → uint160,
bool → uint8, string → utf-8 bytes) inlined; `u8e` is the runtime's
`Buffer.from(-, "utf8")`.  A value of the wrong JavaScript shape for
the type is rejected (parseNumber's "Argument is not a number" and
friends). -/
def encodeSingle (u8e : List Char → List Nat) :
    AbiType → AbiValue → Except JsErr (List Nat)
  | .addressT, .num z => uintEncodeChecked 160 z
  | .boolT, .boolV b => uintEncodeChecked 8 (if b then 1 else 0)
  | .stringT, .strV s => .ok (bytesEncode (u8e s))
  | .bytesT, .bufV b => .ok (bytesEncode b)
  | .bytesNT n, .bufV b =>
    if n < 1 || 32 < n then .error (.jsError "Invalid bytes<N> width")
    else .ok (setLengthRight b 32)
  | .uintT n, .num z => uintEncodeChecked n z
  | .intT n, .num z => intEncodeChecked n z
  | .arrayT elem size, .arrV vs =>
    if (match size with
        | some n => decide (n ≠ 0) && decide (n < vs.length)
        | none => false) = true then
      .error (.jsError "Elements exceed array size")
    else do
      let parts ← encodeAbiList (encodeSingle u8e elem) vs
      match size with
      | none => .ok (natToBytesBE 32 vs.length ++ parts.flatten)
      | some _ => .ok parts.flatten
  | _, _ => .error (.jsError "Argument is not a number")

/-- The uint<N> branch of decodeSingle: read the 32-byte word at the
offset and reject when its bit length exceeds the width. -/
def uintDecodeChecked (n : Nat) (data : List Nat) (off : Nat) :
    Except JsErr Nat :=
  if n < bnBitLength (readWord data off) then
    .error (.jsError "Decoded int exceeds width")
  else .ok (readWord data off)

/-- The bytes branch of decodeSingle: the word at the offset is a
pointer, the word at the pointer is the byte length, the payload
follows it. -/
def bytesDecode (data : List Nat) (off : Nat) : Except JsErr (List Nat) := do
  let p ← jsToNumberChk (readWord data off)
  let sz ← jsToNumberChk (readWord data p)
  .ok (listSlice data (p + 32) (p + 32 + sz))

/-- The element loop of decodeSingle's array branch: `n` elements
decoded from `off` advancing by the element's memoryUsage `stride`. -/
def decodeAbiSeq (f : List Nat → Nat → Except JsErr AbiValue)
    (data : List Nat) (stride : Nat) : Nat → Nat → Except JsErr (List AbiValue)
  | _, 0 => .ok []
  | off, n + 1 => do
    let v ← f data off
    let vs ← decodeAbiSeq f data stride (off + stride) n
    .ok (v :: vs)

/-- decodeSingle (vendor/ethereumjs-abi.js lines 273-353) on the
supported types, with the delegating leaves inlined; `u8d` is the
runtime's `Buffer.prototype.toString("utf8")`.  An address decodes to
the unprefixed lowercase hexadecimal string of its low 20 bytes; a bool
decodes by comparison of the word with 1. -/
def decodeSingle (u8d : List Nat → List Char) :
    AbiType → List Nat → Nat → Except JsErr AbiValue
  | .addressT, data, off => do
    let w ← uintDecodeChecked 160 data off
    .ok (.strV (hexStringFromBuffer (natToBytesBE 20 w) false))
  | .boolT, data, off => do
    let w ← uintDecodeChecked 8 data off
    .ok (.boolV (w == 1))
  | .stringT, data, off => do
    let bs ← bytesDecode data off
    .ok (.strV (u8d bs))
  | .bytesT, data, off => do
    let bs ← bytesDecode data off
    .ok (.bufV bs)
  | .bytesNT n, data, off => .ok (.bufV (listSlice data off (off + n)))
  | .uintT n, data, off => do
    let w ← uintDecodeChecked n data off
    .ok (.num (w : ℤ))
  | .intT n, data, off =>
    if n < bnBitLength (fromTwos256 (readWord data off)) then
      .error (.jsError "Decoded uint exceeds width")
    else .ok (.num (fromTwos256 (readWord data off)))
  | .arrayT elem size, data, off =>
    match size with
    | some n => do
      let vs ← decodeAbiSeq (decodeSingle u8d elem) data
        (abiMemoryUsage elem) off n
      .ok (.arrV vs)
    | none => do
      let p ← jsToNumberChk (readWord data off)
      let n ← jsToNumberChk (readWord data p)
      let vs ← decodeAbiSeq (decodeSingle u8d elem) data
        (abiMemoryUsage elem) (p + 32) n
      .ok (.arrV vs)

/-- The per-item loop of rawEncode: `headLen` is the running headLength
counter (initially the total head width, growing by each emitted tail);
the result pairs the head words with the tail blocks, in order.  The
pointer word for a dynamic item is encodeSingle("uint256", headLength),
whose checks cannot fail for an attainable headLength. -/
def rawEncodeAux (u8e : List Char → List Nat) (headLen : Nat) :
    List (AbiType × AbiValue) →
      Except JsErr (List (List Nat) × List (List Nat))
  | [] => .ok ([], [])
  | (t, v) :: rest => do
    let cur ← encodeSingle u8e t v
    if isDynamicT t then do
      let (os, ds) ← rawEncodeAux u8e (headLen + cur.length) rest
      .ok (natToBytesBE 32 headLen :: os, cur :: ds)
    else do
      let (os, ds) ← rawEncodeAux u8e headLen rest
      .ok (cur :: os, ds)

/-- ABI.rawEncode (vendor/ethereumjs-abi.js lines 434-470): heads then
tails, concatenated. -/
def ABI.rawEncode (u8e : List Char → List Nat) (ts : List AbiType)
    (vs : List AbiValue) : Except JsErr (List Nat) := do
  let (os, ds) ← rawEncodeAux u8e (abiHeadLength ts) (ts.zip vs)
  .ok (os.flatten ++ ds.flatten)

/-- The per-item loop of rawDecode: validate the type (parseType), decode
at the running offset, advance by the type's memoryUsage. -/
def rawDecodeAux (u8d : List Nat → List Char) (data : List Nat) :
    Nat → List AbiType → Except JsErr (List AbiValue)
  | _, [] => .ok []
  | off, t :: ts => do
    let _ ← validateAbiType t
    let v ← decodeSingle u8d t data off
    let vs ← rawDecodeAux u8d data (off + abiMemoryUsage t) ts
    .ok (v :: vs)

/-- ABI.rawDecode (vendor/ethereumjs-abi.js lines 472-484). -/
def ABI.rawDecode (u8d : List Nat → List Char) (ts : List AbiType)
    (data : List Nat) : Except JsErr (List AbiValue) :=
  rawDecodeAux u8d data 0 ts

theorem natToBytesBE_length : ∀ w n, (natToBytesBE w n).length = w := by
  intro w
  induction w with
  | zero => intro n; rfl
  | succ w ih =>
    intro n
    simp [natToBytesBE, ih]

theorem digitsValBE_natToBytesBE :
    ∀ w n, n < 256 ^ w → digitsValBE 256 (natToBytesBE w n) = n := by
  intro w
  induction w with
  | zero =>
    intro n hn
    simp only [pow_zero, Nat.lt_one_iff] at hn
    simp [hn, natToBytesBE, digitsValBE]
  | succ w ih =>
    intro n hn
    have hdiv : n / 256 < 256 ^ w := by
      rw [Nat.div_lt_iff_lt_mul (by norm_num)]
      calc n < 256 ^ (w + 1) := hn
        _ = 256 ^ w * 256 := by ring
    simp only [natToBytesBE]
    rw [digitsValBE_append, ih (n / 256) hdiv]
    have h1 : digitsValBE 256 [n % 256] = n % 256 := by simp [digitsValBE]
    have h2 : ([n % 256] : List ℕ).length = 1 := rfl
    rw [h1, h2, pow_one, Nat.mul_comm]
    have := Nat.div_add_mod n 256
    omega

theorem natToBytesBE_lt : ∀ w n, ∀ x ∈ natToBytesBE w n, x < 256 := by
  intro w
  induction w with
  | zero => intro n x hx; simp [natToBytesBE] at hx
  | succ w ih =>
    intro n x hx
    simp only [natToBytesBE, List.mem_append, List.mem_singleton] at hx
    rcases hx with hx | hx
    · exact ih (n / 256) x hx
    · rw [hx]; exact Nat.mod_lt n (by norm_num)

theorem listSlice_append {α : Type} (X B R : List α) (k : Nat)

    (hb : B.length = k) :
    listSlice (X ++ B ++ R) X.length (X.length + k) = B := by
  unfold listSlice
  rw [List.append_assoc, List.drop_left, Nat.add_sub_cancel_left, ← hb,
    List.take_left]

theorem readWord_at (X B R : List Nat) (hb : B.length = 32) :
    readWord (X ++ B ++ R) X.length = digitsValBE 256 B := by
  unfold readWord
  rw [listSlice_append X B R 32 hb]

theorem readWord_word (X R : List Nat) (n : Nat) (hn : n < 256 ^ 32) :
    readWord (X ++ natToBytesBE 32 n ++ R) X.length = n := by
  rw [readWord_at X _ R (natToBytesBE_length 32 n)]
  exact digitsValBE_natToBytesBE 32 n hn

theorem digitsValBE_lt_pow (b : ℕ) (l : List ℕ) (h : ∀ d ∈ l, d < b) :
    digitsValBE b l < b ^ l.length := by
  induction l with
  | nil => simp [digitsValBE]
  | cons d l ih =>
    rw [digitsValBE_cons]
    have hd : d < b := h d (by simp)
    have hl : digitsValBE b l < b ^ l.length :=
      ih (fun x hx => h x (by simp [hx]))
    have hble : d * b ^ l.length + digitsValBE b l + 1 ≤ b ^ (l.length + 1) := by
      calc d * b ^ l.length + digitsValBE b l + 1
          ≤ d * b ^ l.length + b ^ l.length := by omega
        _ = (d + 1) * b ^ l.length := by ring
        _ ≤ b * b ^ l.length := by
            exact Nat.mul_le_mul_right _ (by omega)
        _ = b ^ (l.length + 1) := by ring
    simpa [List.length_cons] using hble

theorem natDigitsBEAux_length_le (b : ℕ) (hb : 2 ≤ b) :
    ∀ fuel n N, n ≤ fuel → n < b ^ N →
      (natDigitsBEAux b fuel n).length ≤ N := by
  intro fuel
  induction fuel with
  | zero => intro n N _ _; simp [natDigitsBEAux]
  | succ fuel ih =>
    intro n N hn hN
    by_cases h0 : n = 0
    · simp [h0, natDigitsBEAux]
    · have hNpos : 0 < N := by
        rcases Nat.eq_zero_or_pos N with h | h
        · rw [h] at hN; simp at hN; omega
        · exact h
      have hdivfuel : n / b ≤ fuel := by
        have := Nat.div_lt_self (Nat.pos_of_ne_zero h0) (by omega : 1 < b)
        omega
      have hdivN : n / b < b ^ (N - 1) := by
        rw [Nat.div_lt_iff_lt_mul (by omega : 0 < b)]
        calc n < b ^ N := hN
          _ = b ^ (N - 1) * b := by
              rw [← pow_succ]
              congr 1
              omega
      have := ih (n / b) (N - 1) hdivfuel hdivN
      simp only [natDigitsBEAux, h0, if_false, List.length_append,
        List.length_singleton]
      omega

theorem bnBitLength_le (z : ℤ) (N : ℕ) (h : z.natAbs < 2 ^ N) :
    bnBitLength z ≤ N :=
  natDigitsBEAux_length_le 2 le_rfl z.natAbs z.natAbs N le_rfl h

theorem bnBitLength_lt_of_le (z : ℤ) (N : ℕ) (h : bnBitLength z ≤ N) :
    z.natAbs < 2 ^ N := by
  have hval := natDigitsBE_val 2 z.natAbs le_rfl
  have hlt := digitsValBE_lt_pow 2 (natDigitsBE 2 z.natAbs)
    (natDigitsBE_lt 2 z.natAbs (by norm_num))
  rw [hval] at hlt
  calc z.natAbs < 2 ^ (natDigitsBE 2 z.natAbs).length := hlt
    _ ≤ 2 ^ N := Nat.pow_le_pow_right (by norm_num) h

set_option maxRecDepth 8192 in
theorem fromTwos256_toTwos256 (z : ℤ) (hlo : -(2 ^ 255) ≤ z)
    (hhi : z < 2 ^ 255) : fromTwos256 (toTwos256 z) = z := by
  unfold fromTwos256 toTwos256
  split <;> omega

set_option maxRecDepth 8192 in
theorem toTwos256_lt (z : ℤ) : toTwos256 z < 2 ^ 256 := by
  unfold toTwos256
  have h1 : z % 2 ^ 256 < 2 ^ 256 :=
    Int.emod_lt_of_pos z (by norm_num)
  have h2 : (0 : ℤ) ≤ z % 2 ^ 256 := Int.emod_nonneg z (by norm_num)
  omega

/-- The static leaf types (one 32-byte head word, no tail): bool,
bytesN, uintN, intN. -/
def AbiStaticLeaf : AbiType → Prop
  | .boolT => True
  | .bytesNT _ => True
  | .uintT _ => True
  | .intT _ => True
  | _ => False

/-- The type descriptors for which the round-trip holds: valid leaf
widths, no address (it decodes to a hex string), and arrays only of
static leaf element types (a dynamic element type is encoded inline but
decoded through pointers, and a nested array breaks the head-width
accounting). -/
def AbiGoodType : AbiType → Prop
  | .addressT => False
  | .boolT => True
  | .stringT => True
  | .bytesT => True
  | .bytesNT n => 1 ≤ n ∧ n ≤ 32
  | .uintT n => n % 8 = 0 ∧ 8 ≤ n ∧ n ≤ 256
  | .intT n => n % 8 = 0 ∧ 8 ≤ n ∧ n ≤ 256
  | .arrayT elem size =>
    AbiStaticLeaf elem ∧ AbiGoodType elem ∧
      (match size with | some _ => True | none => True)

/-- Values within the declared widths: uintN in [0, 2^N), intN in
[-2^(N-1), 2^(N-1)), a bytesN buffer of exactly N bytes, and arrays of
the declared length with elements in range. -/
def AbiGoodVal : AbiType → AbiValue → Prop
  | .boolT, .boolV _ => True
  | .stringT, .strV _ => True
  | .bytesT, .bufV _ => True
  | .bytesNT n, .bufV b => b.length = n
  | .uintT n, .num z => 0 ≤ z ∧ z < 2 ^ n
  | .intT n, .num z => -(2 ^ (n - 1)) ≤ z ∧ z < 2 ^ (n - 1)
  | .arrayT elem (some n), .arrV vs =>
    vs.length = n ∧ ∀ v ∈ vs, AbiGoodVal elem v
  | .arrayT elem none, .arrV vs => ∀ v ∈ vs, AbiGoodVal elem v
  | _, _ => False

theorem abiStaticLeaf_memoryUsage (t : AbiType) (h : AbiStaticLeaf t) :
    abiMemoryUsage t = 32 := by
  cases t <;> first | rfl | exact h.elim

theorem abiStaticLeaf_not_dynamic (t : AbiType) (h : AbiStaticLeaf t) :
    isDynamicT t = false := by
  cases t <;> first | rfl | exact h.elim

theorem abiMemoryUsage_headLen (t : AbiType) (h : AbiGoodType t) :
    abiMemoryUsage t = abiStaticHeadLen t := by
  cases t with
  | arrayT elem size =>
    cases size with
    | none => rfl
    | some n =>
      show abiMemoryUsage elem * n = 32 * n
      rw [abiStaticLeaf_memoryUsage elem h.1]
  | _ => first | rfl | exact h.elim

theorem validateAbiType_ok (t : AbiType) (h : AbiGoodType t) :
    validateAbiType t = .ok () := by
  induction t with
  | arrayT elem size ih =>
    exact ih h.2.1
  | bytesNT n =>
    obtain ⟨h1, h2⟩ := h
    rw [validateAbiType, if_neg]
    simp only [Bool.or_eq_true, decide_eq_true_eq, not_or]
    omega
  | uintT n =>
    obtain ⟨h1, h2, h3⟩ := h
    rw [validateAbiType, if_neg]
    simp only [Bool.or_eq_true, bne_iff_ne, decide_eq_true_eq, not_or]
    omega
  | intT n =>
    obtain ⟨h1, h2, h3⟩ := h
    rw [validateAbiType, if_neg]
    simp only [Bool.or_eq_true, bne_iff_ne, decide_eq_true_eq, not_or]
    omega
  | _ => first | rfl | exact h.elim

theorem uintEncodeChecked_ok (n : Nat) (z : ℤ)
    (hw : n % 8 = 0 ∧ 8 ≤ n ∧ n ≤ 256) (hz : 0 ≤ z ∧ z < 2 ^ n) :
    uintEncodeChecked n z = .ok (natToBytesBE 32 z.toNat) := by
  have habs : z.natAbs < 2 ^ n := by
    have h1 : (z.natAbs : ℤ) = z := Int.natAbs_of_nonneg hz.1
    have h2 : (z.natAbs : ℤ) < ((2 ^ n : ℕ) : ℤ) := by
      rw [h1]
      push_cast
      exact hz.2
    exact_mod_cast h2
  rw [uintEncodeChecked, if_neg (by
      simp only [Bool.or_eq_true, bne_iff_ne, decide_eq_true_eq, not_or]
      omega),
    if_neg (by
      have := bnBitLength_le z n habs
      omega),
    if_neg (by omega)]

theorem intEncodeChecked_ok (n : Nat) (z : ℤ)
    (hw : n % 8 = 0 ∧ 8 ≤ n ∧ n ≤ 256)
    (hz : -(2 ^ (n - 1)) ≤ z ∧ z < 2 ^ (n - 1)) :
    intEncodeChecked n z = .ok (natToBytesBE 32 (toTwos256 z)) := by
  have habs : z.natAbs < 2 ^ n := by
    have h1 : (z.natAbs : ℤ) ≤ 2 ^ (n - 1) := by
      rcases le_or_lt 0 z with hpos | hneg
      · rw [Int.natAbs_of_nonneg hpos]
        exact le_of_lt hz.2
      · rw [Int.ofNat_natAbs_of_nonpos (le_of_lt hneg)]
        omega
    have h2 : ((2 : ℤ)) ^ (n - 1) < 2 ^ n :=
      pow_lt_pow_right₀ (by norm_num) (by omega)
    have h3 : (z.natAbs : ℤ) < ((2 ^ n : ℕ) : ℤ) := by
      rw [Nat.cast_pow, Nat.cast_ofNat]
      exact lt_of_le_of_lt h1 h2
    exact_mod_cast h3
  rw [intEncodeChecked, if_neg (by
      simp only [Bool.or_eq_true, bne_iff_ne, decide_eq_true_eq, not_or]
      omega),
    if_neg (by
      have := bnBitLength_le z n habs
      omega)]

theorem setLengthRight_pad (b : List Nat) (h : b.length ≤ 32) :
    setLengthRight b 32 = b ++ List.replicate (32 - b.length) 0 := by
  unfold setLengthRight
  by_cases h32 : 32 ≤ b.length
  · have hlen : b.length = 32 := by omega
    rw [if_pos h32, hlen]
    simp [List.take_of_length_le, hlen]
  · rw [if_neg h32]

theorem pow256_32 : (256 : ℕ) ^ 32 = 2 ^ 256 := by norm_num

theorem abiLeaf_encode_decode (u8e : List Char → List Nat)
    (u8d : List Nat → List Char) (t : AbiType) (v : AbiValue)
    (hleaf : AbiStaticLeaf t) (hty : AbiGoodType t) (hv : AbiGoodVal t v) :
    ∃ e, encodeSingle u8e t v = .ok e ∧ e.length = 32 ∧
      ∀ (X R : List Nat), decodeSingle u8d t (X ++ e ++ R) X.length = .ok v := by
  cases t with
  | uintT n =>
    cases v with
    | num z =>
      have htoNat : z.toNat < 2 ^ n := by
        have h1 : (z.toNat : ℤ) < ((2 ^ n : ℕ) : ℤ) := by
          rw [Int.toNat_of_nonneg hv.1, Nat.cast_pow, Nat.cast_ofNat]
          exact hv.2
        exact_mod_cast h1
      have h256 : z.toNat < 256 ^ 32 := by
        rw [pow256_32]
        calc z.toNat < 2 ^ n := htoNat
          _ ≤ 2 ^ 256 := Nat.pow_le_pow_right (by norm_num) hty.2.2
      refine ⟨natToBytesBE 32 z.toNat, uintEncodeChecked_ok n z hty hv,
        natToBytesBE_length 32 _, ?_⟩
      intro X R
      have hw : readWord (X ++ natToBytesBE 32 z.toNat ++ R) X.length
          = z.toNat := readWord_word X R z.toNat h256
      have hbits : bnBitLength ((z.toNat : ℕ) : ℤ) ≤ n := by
        apply bnBitLength_le
        rw [Int.natAbs_ofNat]
        exact htoNat
      show (do
        let w ← uintDecodeChecked n (X ++ natToBytesBE 32 z.toNat ++ R) X.length
        pure (AbiValue.num (w : ℤ))) = .ok (.num z)
      rw [show uintDecodeChecked n (X ++ natToBytesBE 32 z.toNat ++ R) X.length
          = .ok z.toNat by
        unfold uintDecodeChecked
        rw [hw]
        rw [if_neg (by omega)]]
      show Except.ok (AbiValue.num ((z.toNat : ℕ) : ℤ)) = .ok (.num z)
      rw [Int.toNat_of_nonneg hv.1]
    | boolV b => exact (hv : False).elim
    | strV s => exact (hv : False).elim
    | bufV b => exact (hv : False).elim
    | arrV vs => exact (hv : False).elim
  | intT n =>
    cases v with
    | num z =>
      have hn8 : 8 ≤ n := hty.2.1
      have hn256 : n ≤ 256 := hty.2.2
      have hvl : -(2 ^ (n - 1)) ≤ z := hv.1
      have hvr : z < 2 ^ (n - 1) := hv.2
      have habs : z.natAbs < 2 ^ n := by
        have h1 : (z.natAbs : ℤ) ≤ 2 ^ (n - 1) := by
          rcases le_or_lt 0 z with hpos | hneg
          · rw [Int.natAbs_of_nonneg hpos]
            exact le_of_lt hvr
          · rw [Int.ofNat_natAbs_of_nonpos (le_of_lt hneg)]
            omega
        have h2 : ((2 : ℤ)) ^ (n - 1) < 2 ^ n :=
          pow_lt_pow_right₀ (by norm_num) (by omega)
        have h3 : (z.natAbs : ℤ) < ((2 ^ n : ℕ) : ℤ) := by
          rw [Nat.cast_pow, Nat.cast_ofNat]
          exact lt_of_le_of_lt h1 h2
        exact_mod_cast h3
      have hrange : -(2 ^ 255) ≤ z ∧ z < 2 ^ 255 := by
        have hmono : ((2 : ℤ)) ^ (n - 1) ≤ 2 ^ 255 :=
          pow_le_pow_right₀ (by norm_num) (by omega)
        constructor <;> omega
      have hfrom : fromTwos256 (toTwos256 z) = z :=
        fromTwos256_toTwos256 z hrange.1 hrange.2
      have h256 : toTwos256 z < 256 ^ 32 := by
        rw [pow256_32]
        exact toTwos256_lt z
      refine ⟨natToBytesBE 32 (toTwos256 z), intEncodeChecked_ok n z hty hv,
        natToBytesBE_length 32 _, ?_⟩
      intro X R
      have hw : readWord (X ++ natToBytesBE 32 (toTwos256 z) ++ R) X.length
          = toTwos256 z := readWord_word X R _ h256
      have hbits : bnBitLength z ≤ n := bnBitLength_le z n habs
      show (if n < bnBitLength (fromTwos256 (readWord
            (X ++ natToBytesBE 32 (toTwos256 z) ++ R) X.length)) then
          (.error (.jsError "Decoded uint exceeds width") :
            Except JsErr AbiValue)
        else .ok (.num (fromTwos256 (readWord
            (X ++ natToBytesBE 32 (toTwos256 z) ++ R) X.length))))
          = .ok (.num z)
      rw [hw, hfrom, if_neg (by omega)]
    | boolV b => exact (hv : False).elim
    | strV s => exact (hv : False).elim
    | bufV b => exact (hv : False).elim
    | arrV vs => exact (hv : False).elim
  | boolT =>
    cases v with
    | boolV b =>
      have henc : encodeSingle u8e .boolT (.boolV b)
          = .ok (natToBytesBE 32 (if b then 1 else 0)) := by
        cases b
        · exact uintEncodeChecked_ok 8 0 (by norm_num) (by norm_num)
        · exact uintEncodeChecked_ok 8 1 (by norm_num) (by norm_num)
      refine ⟨natToBytesBE 32 (if b then 1 else 0), henc,
        natToBytesBE_length 32 _, ?_⟩
      intro X R
      have h256 : (if b then 1 else 0) < 256 ^ 32 := by
        cases b <;> norm_num
      have hw : readWord (X ++ natToBytesBE 32 (if b then 1 else 0) ++ R)
          X.length = (if b then 1 else 0) := readWord_word X R _ h256
      show (do
        let w ← uintDecodeChecked 8
          (X ++ natToBytesBE 32 (if b then 1 else 0) ++ R) X.length
        pure (AbiValue.boolV (w == 1))) = .ok (.boolV b)
      rw [show uintDecodeChecked 8
          (X ++ natToBytesBE 32 (if b then 1 else 0) ++ R) X.length
          = .ok (if b then 1 else 0) by
        unfold uintDecodeChecked
        rw [hw]
        rw [if_neg (by cases b <;> decide)]]
      cases b <;> rfl
    | num z => exact (hv : False).elim
    | strV s => exact (hv : False).elim
    | bufV b => exact (hv : False).elim
    | arrV vs => exact (hv : False).elim
  | bytesNT n =>
    cases v with
    | bufV b =>
      obtain ⟨h1, h2⟩ := (hty : 1 ≤ n ∧ n ≤ 32)
      have hlen : b.length ≤ 32 := by
        rw [hv]
        exact h2
      have henc : encodeSingle u8e (.bytesNT n) (.bufV b)
          = .ok (b ++ List.replicate (32 - b.length) 0) := by
        show (if n < 1 || 32 < n then
            (.error (.jsError "Invalid bytes<N> width") :
              Except JsErr (List Nat))
          else .ok (setLengthRight b 32))
            = .ok (b ++ List.replicate (32 - b.length) 0)
        rw [if_neg (by
            simp only [Bool.or_eq_true, decide_eq_true_eq, not_or]
            omega),
          setLengthRight_pad b hlen]
      refine ⟨b ++ List.replicate (32 - b.length) 0, henc, by
        simp [List.length_append, List.length_replicate]
        omega, ?_⟩
      intro X R
      show Except.ok (AbiValue.bufV (listSlice
          (X ++ (b ++ List.replicate (32 - b.length) 0) ++ R) X.length
          (X.length + n))) = .ok (.bufV b)
      have hassoc : X ++ (b ++ List.replicate (32 - b.length) 0) ++ R
          = X ++ b ++ (List.replicate (32 - b.length) 0 ++ R) := by
        simp [List.append_assoc]
      rw [hassoc, listSlice_append X b _ n hv]
    | num z => exact (hv : False).elim
    | boolV c => exact (hv : False).elim
    | strV s => exact (hv : False).elim
    | arrV vs => exact (hv : False).elim
  | addressT => exact (hty : False).elim
  | stringT => exact (hleaf : False).elim
  | bytesT => exact (hleaf : False).elim
  | arrayT elem size => exact (hleaf : False).elim

theorem flatten_length_const (parts : List (List Nat))
    (h : ∀ p ∈ parts, p.length = 32) :
    parts.flatten.length = 32 * parts.length := by
  induction parts with
  | nil => rfl
  | cons p rest ih =>
    simp only [List.flatten_cons, List.length_append, List.length_cons]
    rw [h p (by simp), ih (fun q hq => h q (by simp [hq]))]
    ring

theorem encodeAbiList_leaf (u8e : List Char → List Nat)
    (u8d : List Nat → List Char) (elem : AbiType)
    (hleaf : AbiStaticLeaf elem) (hty : AbiGoodType elem) :
    ∀ vs : List AbiValue, (∀ v ∈ vs, AbiGoodVal elem v) →
      ∃ parts, encodeAbiList (encodeSingle u8e elem) vs = .ok parts ∧
        parts.length = vs.length ∧ (∀ p ∈ parts, p.length = 32) ∧
        ∀ X R : List Nat,
          decodeAbiSeq (decodeSingle u8d elem) (X ++ parts.flatten ++ R) 32
            X.length vs.length = .ok vs := by
  intro vs
  induction vs with
  | nil =>
    intro _
    exact ⟨[], rfl, rfl, by simp, fun X R => rfl⟩
  | cons v rest ih =>
    intro hgood
    obtain ⟨e, henc, helen, hdec⟩ := abiLeaf_encode_decode u8e u8d elem v
      hleaf hty (hgood v (by simp))
    obtain ⟨parts, hps, hlen, h32, hseq⟩ :=
      ih (fun w hw => hgood w (by simp [hw]))
    refine ⟨e :: parts, ?_, by simp [hlen], ?_, ?_⟩
    · show (do
        let x ← encodeSingle u8e elem v
        let xs ← encodeAbiList (encodeSingle u8e elem) rest
        pure (x :: xs)) = .ok (e :: parts)
      rw [henc, hps]
      rfl
    · intro p hp
      rcases List.mem_cons.mp hp with hp | hp
      · rw [hp]; exact helen
      · exact h32 p hp
    · intro X R
      show (do
        let w ← decodeSingle u8d elem ((X ++ (e :: parts).flatten ++ R)) X.length
        let ws ← decodeAbiSeq (decodeSingle u8d elem)
          (X ++ (e :: parts).flatten ++ R) 32 (X.length + 32) rest.length
        pure (w :: ws)) = .ok (v :: rest)
      have hD : X ++ (e :: parts).flatten ++ R
          = X ++ e ++ (parts.flatten ++ R) := by
        simp [List.flatten_cons, List.append_assoc]
      have h1 : decodeSingle u8d elem (X ++ (e :: parts).flatten ++ R) X.length
          = .ok v := by
        rw [hD]
        exact hdec X (parts.flatten ++ R)
      have hX32 : (X ++ e).length = X.length + 32 := by
        simp [List.length_append, helen]
      have h2 : decodeAbiSeq (decodeSingle u8d elem)
          (X ++ (e :: parts).flatten ++ R) 32 (X.length + 32) rest.length
          = .ok rest := by
        have hD2 : X ++ (e :: parts).flatten ++ R
            = (X ++ e) ++ parts.flatten ++ R := by
          simp [List.flatten_cons, List.append_assoc]
        rw [hD2, ← hX32]
        exact hseq (X ++ e) R
      rw [h1, h2]
      rfl

theorem abiStatic_encode_decode (u8e : List Char → List Nat)
    (u8d : List Nat → List Char) (t : AbiType) (v : AbiValue)
    (hst : isDynamicT t = false) (hty : AbiGoodType t)
    (hv : AbiGoodVal t v) :
    ∃ e, encodeSingle u8e t v = .ok e ∧ e.length = abiStaticHeadLen t ∧
      ∀ X R : List Nat, decodeSingle u8d t (X ++ e ++ R) X.length = .ok v := by
  cases t with
  | arrayT elem size =>
    cases size with
    | none => simp [isDynamicT] at hst
    | some n =>
      cases v with
      | arrV vs =>
        obtain ⟨hleaf, htyE, -⟩ := (hty : _ ∧ _ ∧ _)
        obtain ⟨hvlen, hvgood⟩ := (hv : _ ∧ _)
        obtain ⟨parts, hps, hplen, h32, hseq⟩ :=
          encodeAbiList_leaf u8e u8d elem hleaf htyE vs hvgood
        have henc : encodeSingle u8e (.arrayT elem (some n)) (.arrV vs)
            = .ok parts.flatten := by
          show (if (decide (n ≠ 0) && decide (n < vs.length)) = true then
              (.error (.jsError "Elements exceed array size") :
                Except JsErr (List Nat))
            else do
              let ps ← encodeAbiList (encodeSingle u8e elem) vs
              (.ok ps.flatten : Except JsErr (List Nat)))
              = .ok parts.flatten
          rw [if_neg (by
            simp only [Bool.and_eq_true, decide_eq_true_eq]
            rintro ⟨-, hlt⟩
            omega)]
          rw [hps]
          rfl
        refine ⟨parts.flatten, henc, ?_, ?_⟩
        · rw [flatten_length_const parts h32, hplen, hvlen]
          rfl
        · intro X R
          show (do
            let ws ← decodeAbiSeq (decodeSingle u8d elem)
              (X ++ parts.flatten ++ R) (abiMemoryUsage elem) X.length n
            pure (AbiValue.arrV ws)) = .ok (.arrV vs)
          rw [abiStaticLeaf_memoryUsage elem hleaf, ← hvlen, hseq X R]
          rfl
      | num z => exact (hv : False).elim
      | boolV b => exact (hv : False).elim
      | strV s => exact (hv : False).elim
      | bufV b => exact (hv : False).elim
  | stringT => simp [isDynamicT] at hst
  | bytesT => simp [isDynamicT] at hst
  | addressT => exact (hty : False).elim
  | uintT n =>
    obtain ⟨e, h1, h2, h3⟩ :=
      abiLeaf_encode_decode u8e u8d (.uintT n) v trivial hty hv
    exact ⟨e, h1, h2, h3⟩
  | intT n =>
    obtain ⟨e, h1, h2, h3⟩ :=
      abiLeaf_encode_decode u8e u8d (.intT n) v trivial hty hv
    exact ⟨e, h1, h2, h3⟩
  | boolT =>
    obtain ⟨e, h1, h2, h3⟩ :=
      abiLeaf_encode_decode u8e u8d .boolT v trivial hty hv
    exact ⟨e, h1, h2, h3⟩
  | bytesNT n =>
    obtain ⟨e, h1, h2, h3⟩ :=
      abiLeaf_encode_decode u8e u8d (.bytesNT n) v trivial hty hv
    exact ⟨e, h1, h2, h3⟩

theorem pow53_lt_pow256 : (2 : ℕ) ^ 53 < 256 ^ 32 := by norm_num

theorem bytesDecode_at (X M S b pad : List Nat) (h : Nat)
    (hh : h = X.length + 32 + M.length)
    (hlen53 : (X ++ natToBytesBE 32 h ++ M ++
      (natToBytesBE 32 b.length ++ (b ++ pad)) ++ S).length < 2 ^ 53) :
    bytesDecode (X ++ natToBytesBE 32 h ++ M ++
      (natToBytesBE 32 b.length ++ (b ++ pad)) ++ S) X.length = .ok b := by
  have hdlen : (X ++ natToBytesBE 32 h ++ M ++
      (natToBytesBE 32 b.length ++ (b ++ pad)) ++ S).length
      = X.length + 32 + M.length + (32 + (b.length + pad.length))
        + S.length := by
    simp [List.length_append, natToBytesBE_length]
    omega
  have hh53 : h < 2 ^ 53 := by omega
  have hb53 : b.length < 2 ^ 53 := by omega
  have hp : readWord (X ++ natToBytesBE 32 h ++ M ++
      (natToBytesBE 32 b.length ++ (b ++ pad)) ++ S) X.length = h := by
    have := readWord_word X
      (M ++ (natToBytesBE 32 b.length ++ (b ++ pad)) ++ S) h
      (lt_trans hh53 pow53_lt_pow256)
    simpa [List.append_assoc] using this
  have hP : (X ++ natToBytesBE 32 h ++ M).length = h := by
    simp [List.length_append, natToBytesBE_length]
    omega
  have hsz : readWord (X ++ natToBytesBE 32 h ++ M ++
      (natToBytesBE 32 b.length ++ (b ++ pad)) ++ S) h = b.length := by
    have := readWord_word (X ++ natToBytesBE 32 h ++ M) (b ++ pad ++ S)
      b.length (lt_trans hb53 pow53_lt_pow256)
    rw [hP] at this
    simpa [List.append_assoc] using this
  have hP2 : (X ++ natToBytesBE 32 h ++ M ++ natToBytesBE 32 b.length).length
      = h + 32 := by
    simp [List.length_append, natToBytesBE_length]
    omega
  have hslice : listSlice (X ++ natToBytesBE 32 h ++ M ++
      (natToBytesBE 32 b.length ++ (b ++ pad)) ++ S) (h + 32)
      (h + 32 + b.length) = b := by
    have := listSlice_append
      (X ++ natToBytesBE 32 h ++ M ++ natToBytesBE 32 b.length) b (pad ++ S)
      b.length rfl
    rw [hP2] at this
    simpa [List.append_assoc] using this
  unfold bytesDecode
  rw [hp]
  rw [show jsToNumberChk h = .ok h by
    unfold jsToNumberChk
    rw [if_neg (by omega)]]
  show (do
    let sz ← jsToNumberChk (readWord (X ++ natToBytesBE 32 h ++ M ++
      (natToBytesBE 32 b.length ++ (b ++ pad)) ++ S) h)
    pure (listSlice (X ++ natToBytesBE 32 h ++ M ++
      (natToBytesBE 32 b.length ++ (b ++ pad)) ++ S) (h + 32)
      (h + 32 + sz))) = .ok b
  rw [hsz]
  rw [show jsToNumberChk b.length = .ok b.length by
    unfold jsToNumberChk
    rw [if_neg (by omega)]]
  show Except.ok (listSlice (X ++ natToBytesBE 32 h ++ M ++
      (natToBytesBE 32 b.length ++ (b ++ pad)) ++ S) (h + 32)
      (h + 32 + b.length)) = .ok b
  rw [hslice]

theorem abiDyn_encode_decode (u8e : List Char → List Nat)
    (u8d : List Nat → List Char) (hu8 : ∀ s, u8d (u8e s) = s)
    (t : AbiType) (v : AbiValue) (hdyn : isDynamicT t = true)
    (hty : AbiGoodType t) (hv : AbiGoodVal t v) :
    ∃ e, encodeSingle u8e t v = .ok e ∧
      ∀ (X M S : List Nat) (h : Nat), h = X.length + 32 + M.length →
        (X ++ natToBytesBE 32 h ++ M ++ e ++ S).length < 2 ^ 53 →
        decodeSingle u8d t (X ++ natToBytesBE 32 h ++ M ++ e ++ S) X.length
          = .ok v := by
  cases t with
  | bytesT =>
    cases v with
    | bufV b =>
      refine ⟨bytesEncode b, rfl, ?_⟩
      intro X M S h hh hlen
      have hsplit : bytesEncode b = natToBytesBE 32 b.length ++
          (b ++ (if b.length % 32 == 0 then [] else
            List.replicate (32 - b.length % 32) 0)) := by
        simp [bytesEncode, List.append_assoc]
      rw [hsplit] at hlen ⊢
      show (do
        let bs ← bytesDecode (X ++ natToBytesBE 32 h ++ M ++
          (natToBytesBE 32 b.length ++
            (b ++ (if b.length % 32 == 0 then [] else
              List.replicate (32 - b.length % 32) 0))) ++ S) X.length
        pure (AbiValue.bufV bs)) = .ok (.bufV b)
      rw [bytesDecode_at X M S b _ h hh hlen]
      rfl
    | num z => exact (hv : False).elim
    | boolV c => exact (hv : False).elim
    | strV s => exact (hv : False).elim
    | arrV vs => exact (hv : False).elim
  | stringT =>
    cases v with
    | strV s =>
      refine ⟨bytesEncode (u8e s), rfl, ?_⟩
      intro X M S h hh hlen
      have hsplit : bytesEncode (u8e s) = natToBytesBE 32 (u8e s).length ++
          ((u8e s) ++ (if (u8e s).length % 32 == 0 then [] else
            List.replicate (32 - (u8e s).length % 32) 0)) := by
        simp [bytesEncode, List.append_assoc]
      rw [hsplit] at hlen ⊢
      show (do
        let bs ← bytesDecode (X ++ natToBytesBE 32 h ++ M ++
          (natToBytesBE 32 (u8e s).length ++
            ((u8e s) ++ (if (u8e s).length % 32 == 0 then [] else
              List.replicate (32 - (u8e s).length % 32) 0))) ++ S) X.length
        pure (AbiValue.strV (u8d bs))) = .ok (.strV s)
      rw [bytesDecode_at X M S (u8e s) _ h hh hlen]
      show Except.ok (AbiValue.strV (u8d (u8e s))) = .ok (.strV s)
      rw [hu8 s]
    | num z => exact (hv : False).elim
    | boolV c => exact (hv : False).elim
    | bufV b => exact (hv : False).elim
    | arrV vs => exact (hv : False).elim
  | arrayT elem size =>
    cases size with
    | some n => simp [isDynamicT] at hdyn
    | none =>
      cases v with
      | arrV vs =>
        obtain ⟨hleaf, htyE, -⟩ := (hty : _ ∧ _ ∧ _)
        obtain ⟨parts, hps, hplen, h32, hseq⟩ :=
          encodeAbiList_leaf u8e u8d elem hleaf htyE vs (hv : ∀ _ ∈ _, _)
        have henc : encodeSingle u8e (.arrayT elem none) (.arrV vs)
            = .ok (natToBytesBE 32 vs.length ++ parts.flatten) := by
          show (if (false : Bool) = true then
              (.error (.jsError "Elements exceed array size") :
                Except JsErr (List Nat))
            else do
              let ps ← encodeAbiList (encodeSingle u8e elem) vs
              (.ok (natToBytesBE 32 vs.length ++ ps.flatten) :
                Except JsErr (List Nat)))
              = .ok (natToBytesBE 32 vs.length ++ parts.flatten)
          rw [if_neg (by simp)]
          rw [hps]
          rfl
        refine ⟨natToBytesBE 32 vs.length ++ parts.flatten, henc, ?_⟩
        intro X M S h hh hlen
        have hdlen : (X ++ natToBytesBE 32 h ++ M ++
            (natToBytesBE 32 vs.length ++ parts.flatten) ++ S).length
            = X.length + 32 + M.length +
              (32 + parts.flatten.length) + S.length := by
          simp [List.length_append, natToBytesBE_length]
          omega
        have hflat : parts.flatten.length = 32 * vs.length := by
          rw [flatten_length_const parts h32, hplen]
        have hh53 : h < 2 ^ 53 := by omega
        have hn53 : vs.length < 2 ^ 53 := by omega
        have hp : readWord (X ++ natToBytesBE 32 h ++ M ++
            (natToBytesBE 32 vs.length ++ parts.flatten) ++ S) X.length
            = h := by
          have := readWord_word X
            (M ++ (natToBytesBE 32 vs.length ++ parts.flatten) ++ S) h
            (lt_trans hh53 pow53_lt_pow256)
          simpa [List.append_assoc] using this
        have hP : (X ++ natToBytesBE 32 h ++ M).length = h := by
          simp [List.length_append, natToBytesBE_length]
          omega
        have hn : readWord (X ++ natToBytesBE 32 h ++ M ++
            (natToBytesBE 32 vs.length ++ parts.flatten) ++ S) h
            = vs.length := by
          have := readWord_word (X ++ natToBytesBE 32 h ++ M)
            (parts.flatten ++ S) vs.length
            (lt_trans hn53 pow53_lt_pow256)
          rw [hP] at this
          simpa [List.append_assoc] using this
        have hP2 : (X ++ natToBytesBE 32 h ++ M ++
            natToBytesBE 32 vs.length).length = h + 32 := by
          simp [List.length_append, natToBytesBE_length]
          omega
        have hels : decodeAbiSeq (decodeSingle u8d elem)
            (X ++ natToBytesBE 32 h ++ M ++
              (natToBytesBE 32 vs.length ++ parts.flatten) ++ S) 32
            (h + 32) vs.length = .ok vs := by
          have := hseq (X ++ natToBytesBE 32 h ++ M ++
            natToBytesBE 32 vs.length) S
          rw [hP2] at this
          simpa [List.append_assoc] using this
        show (do
          let p ← jsToNumberChk (readWord (X ++ natToBytesBE 32 h ++ M ++
            (natToBytesBE 32 vs.length ++ parts.flatten) ++ S) X.length)
          let m ← jsToNumberChk (readWord (X ++ natToBytesBE 32 h ++ M ++
            (natToBytesBE 32 vs.length ++ parts.flatten) ++ S) p)
          let ws ← decodeAbiSeq (decodeSingle u8d elem)
            (X ++ natToBytesBE 32 h ++ M ++
              (natToBytesBE 32 vs.length ++ parts.flatten) ++ S)
            (abiMemoryUsage elem) (p + 32) m
          pure (AbiValue.arrV ws)) = .ok (.arrV vs)
        rw [hp]
        rw [show jsToNumberChk h = .ok h by
          unfold jsToNumberChk
          rw [if_neg (by omega)]]
        show (do
          let m ← jsToNumberChk (readWord (X ++ natToBytesBE 32 h ++ M ++
            (natToBytesBE 32 vs.length ++ parts.flatten) ++ S) h)
          let ws ← decodeAbiSeq (decodeSingle u8d elem)
            (X ++ natToBytesBE 32 h ++ M ++
              (natToBytesBE 32 vs.length ++ parts.flatten) ++ S)
            (abiMemoryUsage elem) (h + 32) m
          pure (AbiValue.arrV ws)) = .ok (.arrV vs)
        rw [hn]
        rw [show jsToNumberChk vs.length = .ok vs.length by
          unfold jsToNumberChk
          rw [if_neg (by omega)]]
        show (do
          let ws ← decodeAbiSeq (decodeSingle u8d elem)
            (X ++ natToBytesBE 32 h ++ M ++
              (natToBytesBE 32 vs.length ++ parts.flatten) ++ S)
            (abiMemoryUsage elem) (h + 32) vs.length
          pure (AbiValue.arrV ws)) = .ok (.arrV vs)
        rw [abiStaticLeaf_memoryUsage elem hleaf, hels]
        rfl
      | num z => exact (hv : False).elim
      | boolV c => exact (hv : False).elim
      | strV s => exact (hv : False).elim
      | bufV b => exact (hv : False).elim
  | addressT => simp [isDynamicT] at hdyn
  | boolT => simp [isDynamicT] at hdyn
  | bytesNT n => simp [isDynamicT] at hdyn
  | uintT n => simp [isDynamicT] at hdyn
  | intT n => simp [isDynamicT] at hdyn

theorem abiDyn_headLen (t : AbiType) (h : isDynamicT t = true) :
    abiStaticHeadLen t = 32 := by
  cases t with
  | arrayT elem size => cases size with
    | none => rfl
    | some n => simp [isDynamicT] at h
  | _ => rfl

theorem abiDyn_memoryUsage (t : AbiType) (h : isDynamicT t = true) :
    abiMemoryUsage t = 32 := by
  cases t with
  | arrayT elem size => cases size with
    | none => rfl
    | some n => simp [isDynamicT] at h
  | _ => rfl

theorem rawEncodeAux_props (u8e : List Char → List Nat)
    (u8d : List Nat → List Char) (hu8 : ∀ s, u8d (u8e s) = s) :
    ∀ ps : List (AbiType × AbiValue),
      (∀ p ∈ ps, AbiGoodType p.1 ∧ AbiGoodVal p.1 p.2) →
      ∀ h : Nat, ∃ os ds,
        rawEncodeAux u8e h ps = .ok (os, ds) ∧
        os.flatten.length = ((ps.map Prod.fst).map abiStaticHeadLen).sum ∧
        ∀ X Y : List Nat,
          h = X.length + os.flatten.length + Y.length →
          (X ++ os.flatten ++ Y ++ ds.flatten).length < 2 ^ 53 →
          rawDecodeAux u8d (X ++ os.flatten ++ Y ++ ds.flatten) X.length
            (ps.map Prod.fst) = .ok (ps.map Prod.snd) := by
  intro ps
  induction ps with
  | nil =>
    intro _ h
    exact ⟨[], [], rfl, rfl, fun X Y _ _ => rfl⟩
  | cons p ps' ih =>
    obtain ⟨t, v⟩ := p
    intro hgood h
    have hty : AbiGoodType t := (hgood (t, v) (by simp)).1
    have hv : AbiGoodVal t v := (hgood (t, v) (by simp)).2
    have hgood' : ∀ q ∈ ps', AbiGoodType q.1 ∧ AbiGoodVal q.1 q.2 :=
      fun q hq => hgood q (by simp [hq])
    by_cases hdynb : isDynamicT t = true
    · obtain ⟨e, henc, hdec⟩ := abiDyn_encode_decode u8e u8d hu8 t v hdynb
        hty hv
      obtain ⟨os2, ds2, haux, hheads, hdecrest⟩ := ih hgood' (h + e.length)
      have haux2 : rawEncodeAux u8e h ((t, v) :: ps')
          = .ok (natToBytesBE 32 h :: os2, e :: ds2) := by
        simp only [rawEncodeAux, Bind.bind]
        rw [henc]
        simp only [Except.bind]
        rw [hdynb]
        simp only [if_true]
        rw [haux]
        try rfl
      refine ⟨natToBytesBE 32 h :: os2, e :: ds2, haux2, ?_, ?_⟩
      · simp only [List.flatten_cons, List.length_append, List.map_cons,
          List.sum_cons, natToBytesBE_length, hheads,
          abiDyn_headLen t hdynb]
      · intro X Y hh hD53
        have hfl : ((natToBytesBE 32 h :: os2).flatten).length
            = 32 + os2.flatten.length := by
          simp [List.flatten_cons, List.length_append, natToBytesBE_length]
        have hD1 : X ++ (natToBytesBE 32 h :: os2).flatten ++ Y ++
            (e :: ds2).flatten
            = X ++ natToBytesBE 32 h ++ (os2.flatten ++ Y) ++ e ++
              ds2.flatten := by
          simp [List.flatten_cons, List.append_assoc]
        have hdec1 : decodeSingle u8d t (X ++
            (natToBytesBE 32 h :: os2).flatten ++ Y ++ (e :: ds2).flatten)
            X.length = .ok v := by
          rw [hD1]
          exact hdec X (os2.flatten ++ Y) ds2.flatten h
            (by rw [List.length_append]; omega)
            (by rw [← hD1]; exact hD53)
        have hrest : rawDecodeAux u8d (X ++
            (natToBytesBE 32 h :: os2).flatten ++ Y ++ (e :: ds2).flatten)
            (X.length + abiMemoryUsage t) (ps'.map Prod.fst)
            = .ok (ps'.map Prod.snd) := by
          have hD2 : X ++ (natToBytesBE 32 h :: os2).flatten ++ Y ++
              (e :: ds2).flatten
              = (X ++ natToBytesBE 32 h) ++ os2.flatten ++ (Y ++ e) ++
                ds2.flatten := by
            simp [List.flatten_cons, List.append_assoc]
          have hoff : X.length + abiMemoryUsage t
              = (X ++ natToBytesBE 32 h).length := by
            rw [abiDyn_memoryUsage t hdynb]
            simp [List.length_append, natToBytesBE_length]
          rw [hD2, hoff]
          exact hdecrest (X ++ natToBytesBE 32 h) (Y ++ e)
            (by simp only [List.length_append, natToBytesBE_length]; omega)
            (by rw [← hD2]; exact hD53)
        simp only [List.map_cons, rawDecodeAux, Bind.bind]
        rw [validateAbiType_ok t hty]
        simp only [Except.bind]
        rw [hdec1]
        simp only [Except.bind]
        rw [hrest]
        try rfl
    · have hdynf : isDynamicT t = false := by
        rw [Bool.not_eq_true] at hdynb
        exact hdynb
      obtain ⟨e, henc, helen, hdec⟩ := abiStatic_encode_decode u8e u8d t v
        hdynf hty hv
      obtain ⟨os2, ds2, haux, hheads, hdecrest⟩ := ih hgood' h
      have haux2 : rawEncodeAux u8e h ((t, v) :: ps')
          = .ok (e :: os2, ds2) := by
        simp only [rawEncodeAux, Bind.bind]
        rw [henc]
        simp only [Except.bind]
        rw [hdynf]
        simp only [Bool.false_eq_true, if_false]
        rw [haux]
        try rfl
      refine ⟨e :: os2, ds2, haux2, ?_, ?_⟩
      · simp only [List.flatten_cons, List.length_append, List.map_cons,
          List.sum_cons, hheads, helen]
      · intro X Y hh hD53
        have hfl : ((e :: os2).flatten).length
            = e.length + os2.flatten.length := by
          simp [List.flatten_cons, List.length_append]
        have hD1 : X ++ (e :: os2).flatten ++ Y ++ ds2.flatten
            = X ++ e ++ (os2.flatten ++ (Y ++ ds2.flatten)) := by
          simp [List.flatten_cons, List.append_assoc]
        have hdec1 : decodeSingle u8d t
            (X ++ (e :: os2).flatten ++ Y ++ ds2.flatten) X.length
            = .ok v := by
          rw [hD1]
          exact hdec X (os2.flatten ++ (Y ++ ds2.flatten))
        have hrest : rawDecodeAux u8d
            (X ++ (e :: os2).flatten ++ Y ++ ds2.flatten)
            (X.length + abiMemoryUsage t) (ps'.map Prod.fst)
            = .ok (ps'.map Prod.snd) := by
          have hD2 : X ++ (e :: os2).flatten ++ Y ++ ds2.flatten
              = (X ++ e) ++ os2.flatten ++ Y ++ ds2.flatten := by
            simp [List.flatten_cons, List.append_assoc]
          have hoff : X.length + abiMemoryUsage t = (X ++ e).length := by
            rw [abiMemoryUsage_headLen t hty, ← helen]
            simp [List.length_append]
          rw [hD2, hoff]
          exact hdecrest (X ++ e) Y
            (by simp only [List.length_append]; omega)
            (by rw [← hD2]; exact hD53)
        simp only [List.map_cons, rawDecodeAux, Bind.bind]
        rw [validateAbiType_ok t hty]
        simp only [Except.bind]
        rw [hdec1]
        simp only [Except.bind]
        rw [hrest]
        try rfl

/-- C5 (as amended): rawDecode inverts rawEncode for value lists within
the declared widths over the types bool, string, bytes, bytesN, uintN,
intN, and arrays (fixed-size of the declared length, or dynamic) whose
element type is one of the static leaves bool, bytesN, uintN, intN —
provided the encoding stays below the 2^53 pointer-arithmetic limit of
BN.toNumber.  `u8e`/`u8d` are the runtime's utf-8 codec
(Buffer.from(s, "utf8") and Buffer.prototype.toString()), assumed
mutually inverse.  Address values and arrays with dynamic element types
are excluded: they do not round-trip (see the counterexample). -/
theorem abi_roundTrip_good (u8e : List Char → List Nat)
    (u8d : List Nat → List Char) (hu8 : ∀ s, u8d (u8e s) = s)
    (ts : List AbiType) (vs : List AbiValue) (hlen : ts.length = vs.length)
    (hgood : ∀ p ∈ ts.zip vs, AbiGoodType p.1 ∧ AbiGoodVal p.1 p.2) :
    ∃ data, ABI.rawEncode u8e ts vs = .ok data ∧
      (data.length < 2 ^ 53 → ABI.rawDecode u8d ts data = .ok vs) := by
  obtain ⟨os, ds, haux, hheads, hdec⟩ :=
    rawEncodeAux_props u8e u8d hu8 (ts.zip vs) hgood (abiHeadLength ts)
  have hfst : (ts.zip vs).map Prod.fst = ts :=
    List.map_fst_zip ts vs (le_of_eq hlen)
  have hsnd : (ts.zip vs).map Prod.snd = vs :=
    List.map_snd_zip ts vs (ge_of_eq hlen)
  refine ⟨os.flatten ++ ds.flatten, ?_, ?_⟩
  · show (do
      let p ← rawEncodeAux u8e (abiHeadLength ts) (ts.zip vs)
      pure (p.1.flatten ++ p.2.flatten)) = .ok (os.flatten ++ ds.flatten)
    rw [haux]
    rfl
  · intro h53
    have hheads2 : os.flatten.length = abiHeadLength ts := by
      rw [hheads, hfst]
      rfl
    have hD : ([] : List Nat) ++ os.flatten ++ [] ++ ds.flatten
        = os.flatten ++ ds.flatten := by simp
    have := hdec [] []
      (by simp [hheads2])
      (by rw [hD]; exact h53)
    rw [hD, hfst, hsnd] at this
    exact this

/-- A concrete stand-in for the runtime utf-8 encoder (no test below
involves a non-ASCII string, so per-code-point encoding suffices). -/
def abiTestU8e : List Char → List Nat := fun s => s.map Char.toNat

/-- A concrete stand-in for the runtime utf-8 decoder, inverse of the
encoder above. -/
def abiTestU8d : List Nat → List Char := fun bs => bs.map Char.ofNat

/-- C5 counterexample: two value lists within the declared widths whose
round-trip is not the identity.  An address encodes from a BN but
decodes to the unprefixed lowercase hex string of its 20-byte value, so
[num 1] comes back as a 40-character string; and a fixed-size array of
the dynamic type bytes is encoded inline (each element carrying its own
length word) but decoded through pointers, so bytes[1] of [0x01] comes
back as 31 zero bytes. -/
theorem abi_roundTrip_counterexample :
    ABI.rawEncode abiTestU8e [.addressT] [.num 1]
      = .ok (List.replicate 31 0 ++ [1]) ∧
    ABI.rawDecode abiTestU8d [.addressT] (List.replicate 31 0 ++ [1])
      = .ok [.strV (List.replicate 39 '0' ++ ['1'])] ∧
    ABI.rawEncode abiTestU8e [.arrayT .bytesT (some 1)] [.arrV [.bufV [1]]]
      = .ok ((List.replicate 31 0 ++ [1]) ++ [1] ++ List.replicate 31 0) ∧
    ABI.rawDecode abiTestU8d [.arrayT .bytesT (some 1)]
        ((List.replicate 31 0 ++ [1]) ++ [1] ++ List.replicate 31 0)
      = .ok [.arrV [.bufV (List.replicate 31 0)]] := by
  refine ⟨rfl, rfl, rfl, rfl⟩

/-- C5 witness: the amended round-trip theorem applied to a concrete
mixed static/dynamic type list. -/
theorem abi_roundTrip_good_witness :
    ∃ data, ABI.rawEncode abiTestU8e [.uintT 256, .bytesT]
        [.num 5, .bufV [7]] = .ok data ∧
      (data.length < 2 ^ 53 →
        ABI.rawDecode abiTestU8d [.uintT 256, .bytesT] data
          = .ok [.num 5, .bufV [7]]) := by
  refine abi_roundTrip_good abiTestU8e abiTestU8d
    (fun s => by
      simp only [abiTestU8e, abiTestU8d, List.map_map]
      induction s with
      | nil => rfl
      | cons c cs ih => simp [Function.comp, Char.ofNat_toNat, ih])
    [.uintT 256, .bytesT] [.num 5, .bufV [7]] rfl ?_
  intro p hp
  rcases List.mem_cons.mp hp with h | hp2
  · rw [h]
    exact ⟨⟨by norm_num, by norm_num, by norm_num⟩,
      ⟨by norm_num, by norm_num⟩⟩
  · rcases List.mem_cons.mp hp2 with h | habs
    · rw [h]
      exact ⟨trivial, trivial⟩
    · simp at habs
